import Mathlib

/-!
# Axon server: OpenAPI / Swagger to tool-descriptor compiler and invocation handler

A shallow embedding of

* `src/parser/openapi.go`  (`GetSchemaType`, `ConvertSchemaToMap`,
  `ConvertOperationToMCPTool`, `ConvertOpenAPIToMCPTools`),
* `src/parser/swagger.go`  (`convertSchemaToMap`, `convertOperationToMCPTool`,
  `ConvertSwaggerToMCPTools`),
* `src/handlers/openApiMcpHandler.go` (`createHandler`),
* `src/parser/utils.go` (`DetectSpecVersion`, `ParseSpecRouter`),
* the registration loop of `src/main.go`,

followed by theorems about them.

Conventions of the embedding.

* A Go `map[string]T` is an association list `GoMap T`; `m[k]` is `GoMap.get`,
  `m[k] = v` is `GoMap.set` (overwrite in place, else append).  Where the code
  ranges over a map, the list order is the order in which Go happens to visit
  the entries, so a statement for every list is a statement for every visiting
  order.
* A Go `interface{}` value is an `Any`.
* A nil-able pointer is an `Option`.
* A run of Go code ends in a `Run`: a returned value, a returned `error`, or a
  runtime panic.
* Go strings are Lean strings; the substring functions work on the list of
  characters.
-/

namespace Axon

/-! ## Go values -/

/-- A Go `interface{}` value, as far as the compiler and the handler build or
inspect one.  `float` carries the IEEE-754 bit pattern of a `float64`, which is
only ever copied. -/
inductive Any where
  | null
  | bool (b : Bool)
  | str (s : String)
  | float (bits : Nat)
  | uint (n : Nat)
  | int (n : Int)
  | strs (l : List String)
  | list (l : List Any)
  | map (m : List (String × Any))

/-- A Go `map[string]T`. -/
abbrev GoMap (α : Type) := List (String × α)

namespace GoMap

/-- The Go expression `m[k]` with the comma-ok result: the value stored under `k`, if any. -/
def get {α : Type} : GoMap α → String → Option α
  | [], _ => none
  | (k, v) :: rest, key => if k = key then some v else get rest key

/-- The Go statement `m[k] = v`. -/
def set {α : Type} : GoMap α → String → α → GoMap α
  | [], key, v => [(key, v)]
  | (k, w) :: rest, key, v => if k = key then (k, v) :: rest else (k, w) :: set rest key v

/-- The keys of the map. -/
def keys {α : Type} (m : GoMap α) : List String := m.map Prod.fst

end GoMap

/-- How a run of Go code ends. -/
inductive Run (α : Type) where
  | value (a : α)
  | error (msg : String)
  | panic (msg : String)

/-! ## The tool descriptor (`mcp.Tool`) -/

/-- The Go struct `mcp.ToolInputSchema`. -/
structure ToolInputSchema where
  type : String
  properties : GoMap Any
  required : List String

/-- The Go struct `mcp.Tool`. -/
structure Tool where
  name : String
  description : String
  inputSchema : ToolInputSchema

/-- The constant property the compilers write: the map literal with keys type and const. -/
def constProperty (c : String) : Any :=
  Any.map [("type", Any.str "string"), ("const", Any.str c)]

/-! ## OpenAPI 3.x (`src/parser/openapi.go`) -/

namespace OpenAPI

/-- The struct `openapi3.Schema`, restricted to the fields `ConvertSchemaToMap` reads.
`items` and the entries of `properties` are `*SchemaRef`; the inner `Option` is the
`Value` pointer of the reference.  The loader leaves no nil reference inside a
properties map (validation dereferences each of them), so an entry is a reference
whose `Value` may be nil. -/
inductive Schema where
  | mk (type : Option (List String)) (format : String) (description : String)
      (items : Option (Option Schema))
      (properties : Option (List (String × Option Schema)))
      (required : List String)
      (min : Option Nat) (max : Option Nat)
      (minLength : Nat) (maxLength : Option Nat)
      (pattern : String) (enum : List Any)

/-- The function `GetSchemaType`. -/
def GetSchemaType (types : Option (List String)) : String :=
  match types with
  | none => "object"
  | some [] => "object"
  | some (t :: _) => t

/-- Adds `key` when `cond` holds: the shape of every
`if ... then result[key] = v` of the translators. -/
def setIf (cond : Bool) (m : GoMap Any) (key : String) (v : Any) : GoMap Any :=
  if cond then m.set key v else m

/-- Adds `key` for a non-nil pointer field. -/
def setSome (m : GoMap Any) (key : String) (v : Option Any) : GoMap Any :=
  match v with
  | some a => m.set key a
  | none => m

mutual
/-- The body of `ConvertSchemaToMap` after the nil check. -/
def convertSchema : Schema → GoMap Any
  | Schema.mk type format description items properties required
      min max minLength maxLength pattern enum =>
    let result : GoMap Any := []
    let result := setIf (decide ((GetSchemaType type).length > 0)) result "type" (Any.str "object")
    let result := setIf (decide (format ≠ "")) result "format" (Any.str format)
    let result := setIf (decide (description ≠ "")) result "description" (Any.str description)
    let result := setSome result "items" (convertItems items)
    let result :=
      match convertPropertiesField properties with
      | some props =>
        let result := result.set "properties" props
        setIf (decide (required.length > 0)) result "required" (Any.strs required)
      | none => result
    let result := setSome result "minimum" (min.map Any.float)
    let result := setSome result "maximum" (max.map Any.float)
    let result := setIf (decide (minLength ≠ 0)) result "minLength" (Any.uint minLength)
    let result := setSome result "maxLength" (maxLength.map Any.uint)
    let result := setIf (decide (pattern ≠ "")) result "pattern" (Any.str pattern)
    setIf (decide (enum.length > 0)) result "enum" (Any.list enum)
termination_by structural s => s
/-- The function `ConvertSchemaToMap`; the argument is the `*openapi3.Schema`. -/
def ConvertSchemaToMap : Option Schema → GoMap Any
  | none => [("type", Any.str "object")]
  | some s => convertSchema s
termination_by structural s => s
/-- The value stored under items: present when
`schema.Items != nil && schema.Items.Value != nil`. -/
def convertItems : Option (Option Schema) → Option Any
  | some (some it) => some (Any.map (convertSchema it))
  | _ => none
termination_by structural s => s
/-- The value stored under properties: present when `schema.Properties != nil`. -/
def convertPropertiesField : Option (List (String × Option Schema)) → Option Any
  | none => none
  | some ps => some (Any.map (convertProperties ps []))
termination_by structural s => s
/-- The loop `for name, prop := range schema.Properties`, continued from the map
`props` built so far. -/
def convertProperties : List (String × Option Schema) → GoMap Any → GoMap Any
  | [], props => props
  | p :: rest, props => convertProperties rest (props.set p.1 (convertProperty p))
termination_by structural s => s
/-- The right-hand side `ConvertSchemaToMap(prop.Value)` of one loop step. -/
def convertProperty : String × Option Schema → Any
  | (_, prop) => Any.map (ConvertSchemaToMap prop)
termination_by structural s => s
end

/-- The struct `openapi3.Parameter`.  `schema` is the `*SchemaRef` (nil for a parameter
declared through `content`), the inner `Option` its `Value`. -/
structure Parameter where
  name : String
  description : String
  required : Bool
  schema : Option (Option Schema)

/-- The struct `openapi3.MediaType`; `schema` as for a parameter. -/
structure MediaType where
  schema : Option (Option Schema)

/-- The struct `openapi3.RequestBody`; `content` is a `map[string]*MediaType`. -/
structure RequestBody where
  required : Bool
  content : GoMap (Option MediaType)

/-- The struct `openapi3.Operation`.  An entry of `parameters` is the `Value` of a
`*ParameterRef`; `requestBody` is the `*RequestBodyRef`, the inner `Option` its `Value`. -/
structure Operation where
  operationID : String
  summary : String
  description : String
  parameters : List (Option Parameter)
  requestBody : Option (Option RequestBody)

/-- The struct `openapi3.PathItem`, restricted to the five verbs the compiler reads. -/
structure PathItem where
  get : Option Operation
  post : Option Operation
  put : Option Operation
  delete : Option Operation
  patch : Option Operation

/-- The struct `openapi3.T`: the server URLs and `spec.Paths.Map()` in visiting order. -/
structure T where
  servers : List String
  paths : List (String × Option PathItem)

/-- The lookup `content[mime]` of kin-openapi, where a nil entry counts as absent. -/
def contentAt (content : GoMap (Option MediaType)) (mime : String) : Option MediaType :=
  (content.get mime).join

/-- The call `Content.Get("application/json")` of kin-openapi: the exact entry, else the
entry for the type wildcard, else the entry for the full wildcard. -/
def contentGetJSON (content : GoMap (Option MediaType)) : Option MediaType :=
  match contentAt content "application/json" with
  | some m => some m
  | none =>
    match contentAt content "application/*" with
    | some m => some m
    | none => contentAt content "*/*"

/-- The panic of a nil pointer dereference. -/
def nilDereference : String := "runtime error: invalid memory address or nil pointer dereference"

/-- One turn of `for _, param := range operation.Parameters` on the pair
(`properties`, `required`). -/
def addParameter (st : GoMap Any × List String) (param : Option Parameter) :
    Run (GoMap Any × List String) :=
  match param with
  | none => Run.value st
  | some p =>
    match p.schema with
    | none => Run.panic nilDereference
    | some ref =>
      let schema := ConvertSchemaToMap ref
      let schema := if p.description ≠ "" then schema.set "description" (Any.str p.description)
        else schema
      let properties := st.1.set p.name (Any.map schema)
      let required := if p.required then st.2 ++ [p.name] else st.2
      Run.value (properties, required)

/-- The loop `for _, param := range operation.Parameters`. -/
def addParameters : List (Option Parameter) → GoMap Any × List String →
    Run (GoMap Any × List String)
  | [], st => Run.value st
  | param :: rest, st =>
    match addParameter st param with
    | Run.value st1 => addParameters rest st1
    | Run.error e => Run.error e
    | Run.panic e => Run.panic e

/-- The block "Handle request body" of `ConvertOperationToMCPTool`. -/
def addRequestBody (st : GoMap Any × List String) (requestBody : Option (Option RequestBody)) :
    Run (GoMap Any × List String) :=
  match requestBody with
  | some (some rb) =>
    match contentGetJSON rb.content with
    | some jsonContent =>
      match jsonContent.schema with
      | none => Run.panic nilDereference
      | some ref =>
        let properties := st.1.set "body" (Any.map (ConvertSchemaToMap ref))
        let required := if rb.required then st.2 ++ ["body"] else st.2
        Run.value (properties, required)
    | none => Run.value st
  | _ => Run.value st

/-- The block "Build description", shared word for word by both compilers. -/
def buildDescription (summary description method path : String) : String :=
  let d := summary
  let d := if d = "" then description else d
  if d = "" then method ++ " " ++ path else d

/-- The function `ConvertOperationToMCPTool`: `none` is the return `nil, nil`. -/
def ConvertOperationToMCPTool (operation : Operation) (method path : String) :
    Run (Option Tool) :=
  if operation.operationID = "" then Run.value none
  else
    let properties : GoMap Any := []
    let required : List String := []
    let properties := properties.set "endpoint" (constProperty path)
    let properties := properties.set "method" (constProperty method)
    match addParameters operation.parameters (properties, required) with
    | Run.panic e => Run.panic e
    | Run.error e => Run.error e
    | Run.value st =>
      match addRequestBody st operation.requestBody with
      | Run.panic e => Run.panic e
      | Run.error e => Run.error e
      | Run.value st =>
        Run.value (some
          { name := operation.operationID
            description :=
              buildDescription operation.summary operation.description method path
            inputSchema := { type := "object", properties := st.1, required := st.2 } })

end OpenAPI

/-- One block `if item.Verb != nil` of the document loops: compile the operation,
wrap a returned error, append a returned descriptor to `tools`. -/
def compileVerb {Op : Type} (convert : Op → String → String → Run (Option Tool))
    (op : Option Op) (verb fullPath : String) (tools : List Tool) : Run (List Tool) :=
  match op with
  | none => Run.value tools
  | some o =>
    match convert o verb fullPath with
    | Run.panic e => Run.panic e
    | Run.error e =>
      Run.error ("failed to convert " ++ verb ++ " operation for " ++ fullPath ++ ": " ++ e)
    | Run.value none => Run.value tools
    | Run.value (some tool) => Run.value (tools ++ [tool])

/-- Sequencing of two runs: the second starts from the value of the first, an error
or a panic ends the run at once. -/
def Run.andThen {α β : Type} (r : Run α) (f : α → Run β) : Run β :=
  match r with
  | Run.value a => f a
  | Run.error e => Run.error e
  | Run.panic e => Run.panic e

/-- The five blocks GET, POST, PUT, DELETE, PATCH of one turn of a document loop,
given the five operation pointers of the path item. -/
def compileVerbs {Op : Type} (convert : Op → String → String → Run (Option Tool))
    (get post put delete patch : Option Op) (fullPath : String) (tools : List Tool) :
    Run (List Tool) :=
  (((((compileVerb convert get "GET" fullPath tools).andThen
    (compileVerb convert post "POST" fullPath)).andThen
    (compileVerb convert put "PUT" fullPath)).andThen
    (compileVerb convert delete "DELETE" fullPath)).andThen
    (compileVerb convert patch "PATCH" fullPath))

/-- The operations among five operation pointers that are not nil, each with its verb,
in the order of the five blocks. -/
def declaredOperations {Op : Type} (get post put delete patch : Option Op) :
    List (String × Op) :=
  (get.toList.map (fun o => ("GET", o)))
    ++ (post.toList.map (fun o => ("POST", o)))
    ++ (put.toList.map (fun o => ("PUT", o)))
    ++ (delete.toList.map (fun o => ("DELETE", o)))
    ++ (patch.toList.map (fun o => ("PATCH", o)))

namespace OpenAPI

/-- The loop `for path, method := range spec.Paths.Map()`, continued from `tools`. -/
def convertPaths (baseUrl : String) : List (String × Option PathItem) → List Tool →
    Run (List Tool)
  | [], tools => Run.value tools
  | (_, none) :: rest, tools => convertPaths baseUrl rest tools
  | (path, some item) :: rest, tools =>
    (compileVerbs ConvertOperationToMCPTool item.get item.post item.put item.delete item.patch
      (baseUrl ++ path) tools).andThen (convertPaths baseUrl rest)

/-- The function `ConvertOpenAPIToMCPTools`. -/
def ConvertOpenAPIToMCPTools (spec : T) : Run (List Tool) :=
  match spec.servers with
  | [] => Run.panic "runtime error: index out of range [0] with length 0"
  | baseUrl :: _ => convertPaths baseUrl spec.paths []

/-- The names of the parameters declared required, in the order of declaration. -/
def requiredNames (params : List (Option Parameter)) : List String :=
  params.filterMap (fun p =>
    match p with
    | some q => if q.required then some q.name else none
    | none => none)

/-- Whether the operation has a request body that `Content.Get("application/json")`
finds a media type for and that is declared required. -/
def requiresBody (op : Operation) : Bool :=
  match op.requestBody with
  | some (some rb) => (contentGetJSON rb.content).isSome && rb.required
  | _ => false

/-- The operations of a path item among the five verbs, each with its verb. -/
def PathItem.operations (item : PathItem) : List (String × Operation) :=
  declaredOperations item.get item.post item.put item.delete item.patch

end OpenAPI

/-! ## Swagger 2.0 (`src/parser/swagger.go`) -/

namespace Swagger

/-- The struct `spec.Schema` of go-openapi, restricted to the fields
`convertSchemaToMap` reads.  `items` is the `*SchemaOrArray`, the inner `Option` its
`Schema` pointer; `properties` is a `map[string]Schema` of values. -/
inductive Schema where
  | mk (type : List String) (format : String) (description : String)
      (items : Option (Option Schema))
      (properties : List (String × Schema))
      (required : List String)
      (minimum : Option Nat) (maximum : Option Nat)
      (minLength : Option Int) (maxLength : Option Int)
      (pattern : String) (enum : List Any)

mutual
/-- The body of `convertSchemaToMap` after the nil check. -/
def convertSchema : Schema → GoMap Any
  | Schema.mk type format description items properties required
      minimum maximum minLength maxLength pattern enum =>
    let result : GoMap Any := []
    let result :=
      if type.contains "array" then
        let result := result.set "type" (Any.str "array")
        OpenAPI.setSome result "items" (convertItems items)
      else
        match type with
        | t :: _ => result.set "type" (Any.str t)
        | [] => result
    let result := OpenAPI.setIf (decide (format ≠ "")) result "format" (Any.str format)
    let result :=
      OpenAPI.setIf (decide (description ≠ "")) result "description" (Any.str description)
    let result :=
      match properties with
      | [] => result
      | p :: ps => result.set "properties" (Any.map (convertProperties (p :: ps) []))
    let result :=
      OpenAPI.setIf (decide (required.length > 0)) result "required" (Any.strs required)
    let result := OpenAPI.setSome result "minimum" (minimum.map Any.float)
    let result := OpenAPI.setSome result "maximum" (maximum.map Any.float)
    let result := OpenAPI.setSome result "minLength" (minLength.map Any.int)
    let result := OpenAPI.setSome result "maxLength" (maxLength.map Any.int)
    let result := OpenAPI.setIf (decide (pattern ≠ "")) result "pattern" (Any.str pattern)
    OpenAPI.setIf (decide (enum.length > 0)) result "enum" (Any.list enum)
termination_by structural s => s
/-- The value stored under items: present when
`schema.Items != nil && schema.Items.Schema != nil`. -/
def convertItems : Option (Option Schema) → Option Any
  | some (some it) => some (Any.map (convertSchema it))
  | _ => none
termination_by structural s => s
/-- The loop `for name, prop := range schema.Properties`, continued from the map
`props` built so far. -/
def convertProperties : List (String × Schema) → GoMap Any → GoMap Any
  | [], props => props
  | p :: rest, props => convertProperties rest (props.set p.1 (convertProperty p))
termination_by structural s => s
/-- The right-hand side `convertSchemaToMap(&prop)` of one loop step. -/
def convertProperty : String × Schema → Any
  | (_, prop) => Any.map (convertSchema prop)
termination_by structural s => s
end

/-- The function `convertSchemaToMap`; the argument is the `*spec.Schema`. -/
def convertSchemaToMap : Option Schema → GoMap Any
  | none => [("type", Any.str "object")]
  | some s => convertSchema s

/-- The struct `spec.Parameter`.  `schema` is the `*spec.Schema` (set for a body
parameter); `type`, `format`, `enum`, `minimum` and `maximum` are the fields a path,
query or header parameter declares on itself. -/
structure Parameter where
  name : String
  in_ : String
  description : String
  required : Bool
  schema : Option Schema
  type : String
  format : String
  enum : List Any
  minimum : Option Nat
  maximum : Option Nat

/-- The struct `spec.Operation`. -/
structure Operation where
  id : String
  summary : String
  description : String
  parameters : List Parameter

/-- The struct `spec.PathItem`, restricted to the five verbs the compiler reads. -/
structure PathItem where
  get : Option Operation
  post : Option Operation
  put : Option Operation
  delete : Option Operation
  patch : Option Operation

/-- The struct `spec.Swagger`: `paths` is `swaggerDoc.Paths.Paths` in visiting order
(a validated document has a paths object). -/
structure Doc where
  basePath : String
  host : String
  schemes : List String
  paths : List (String × PathItem)

/-- One turn of `for _, param := range operation.Parameters` on the pair
(`properties`, `required`). -/
def addParameter (st : GoMap Any × List String) (param : Parameter) :
    GoMap Any × List String :=
  if param.name = "" then st
  else
    let schema := convertSchemaToMap param.schema
    let schema := if param.description ≠ "" then
        schema.set "description" (Any.str param.description)
      else schema
    let properties := st.1.set param.name (Any.map schema)
    let required := if param.required then st.2 ++ [param.name] else st.2
    if param.in_ = "body" ∧ param.schema.isSome then
      let properties := properties.set "body" (Any.map (convertSchemaToMap param.schema))
      let required := if param.required then required ++ ["body"] else required
      (properties, required)
    else (properties, required)

/-- The function `convertOperationToMCPTool`: `none` is the return `nil, nil`. -/
def convertOperationToMCPTool (operation : Operation) (method path : String) :
    Run (Option Tool) :=
  if operation.id = "" then Run.value none
  else
    let properties : GoMap Any := []
    let required : List String := []
    let properties := properties.set "endpoint" (constProperty path)
    let properties := properties.set "method" (constProperty method)
    let st := operation.parameters.foldl addParameter (properties, required)
    Run.value (some
      { name := operation.id
        description :=
          OpenAPI.buildDescription operation.summary operation.description method path
        inputSchema := { type := "object", properties := st.1, required := st.2 } })

/-- The block "Extract base URL from the swagger doc". -/
def baseURL (swaggerDoc : Doc) : String :=
  let baseURL := swaggerDoc.basePath
  if swaggerDoc.host ≠ "" then
    let scheme := "https"
    let scheme := match swaggerDoc.schemes with
      | s :: _ => s
      | [] => scheme
    scheme ++ "://" ++ swaggerDoc.host ++ baseURL
  else baseURL

/-- The loop `for path, pathItem := range swaggerDoc.Paths.Paths`, continued from `tools`. -/
def convertPaths (baseURL : String) : List (String × PathItem) → List Tool → Run (List Tool)
  | [], tools => Run.value tools
  | (path, item) :: rest, tools =>
    (compileVerbs convertOperationToMCPTool item.get item.post item.put item.delete item.patch
      (baseURL ++ path) tools).andThen (convertPaths baseURL rest)

/-- The function `ConvertSwaggerToMCPTools`. -/
def ConvertSwaggerToMCPTools (swaggerDoc : Doc) : Run (List Tool) :=
  convertPaths (baseURL swaggerDoc) swaggerDoc.paths []

/-- The operations a path item declares among the five verbs, each with its verb. -/
def PathItem.operations (item : PathItem) : List (String × Operation) :=
  declaredOperations item.get item.post item.put item.delete item.patch

/-- The base URL as the specification words it: scheme, `://`, host and base path when
a host is declared, the scheme being the first declared one or https when none is
declared; the base path alone when no host is declared. -/
def specBaseURL (doc : Doc) : String :=
  if doc.host = "" then doc.basePath
  else (doc.schemes.head?.getD "https") ++ "://" ++ doc.host ++ doc.basePath

/-- What the handler can find under the key endpoint of a property bag compiled for
`path`: the constant, or a map without const. -/
def EndpointKept (path : String) (props : GoMap Any) : Prop :=
  props.get "endpoint" = some (constProperty path)
    ∨ ∃ m : GoMap Any, props.get "endpoint" = some (Any.map m) ∧ GoMap.get m "const" = none

/-- The property a parameter without schema compiles to: the type object, and the
description of the parameter when it has one. -/
def schemalessProperty (description : String) : Any :=
  Any.map (if description = "" then [("type", Any.str "object")]
    else [("type", Any.str "object"), ("description", Any.str description)])

/-- Whether a turn of the parameter loop for `q` writes the property `key`: under the
name of `q`, or under body for a body parameter with a schema. -/
def writesProperty (q : Parameter) (key : String) : Prop :=
  q.name ≠ "" ∧ (q.name = key ∨ (key = "body" ∧ q.in_ = "body" ∧ q.schema.isSome = true))

end Swagger

/-! ## Go string functions used by the handler -/

/-- Whether `p` is an initial segment of `s` (Go `strings.HasPrefix`, on characters). -/
def startsWith : List Char → List Char → Bool
  | _, [] => true
  | [], _ :: _ => false
  | c :: s, d :: p => c == d && startsWith s p

/-- Go `strings.Contains`, on characters. -/
def containsChars : List Char → List Char → Bool
  | [], sub => sub.isEmpty
  | c :: s, sub => startsWith (c :: s) sub || containsChars s sub

/-- Go `strings.ReplaceAll` for a non-empty `old`, on characters: scanning from the left,
each occurrence of `old` that does not overlap an earlier one becomes `new`.  `skip` is
the count of characters of a matched occurrence still to pass over. -/
def replaceChars (old new : List Char) : Nat → List Char → List Char
  | _, [] => []
  | skip + 1, _ :: s => replaceChars old new skip s
  | 0, c :: s =>
    if startsWith (c :: s) old then new ++ replaceChars old new (old.length - 1) s
    else c :: replaceChars old new 0 s

/-- Go `strings.Contains`. -/
def strContains (s sub : String) : Bool := containsChars s.data sub.data

/-- Go `strings.ReplaceAll(s, old, new)`, for a non-empty `old`. -/
def strReplaceAll (s old new : String) : String :=
  String.mk (replaceChars old.data new.data 0 s.data)

/-! ## The invocation handler (`src/handlers/openApiMcpHandler.go`) -/

/-- The Go standard library as the handler uses it, for argument values of type `V`
(the dynamic values of `request.Params.Arguments`). -/
structure GoRuntime (V : Type) where
  /-- The text `fmt.Sprint(v)`. -/
  sprint : V → String
  /-- The call `json.MarshalIndent(v, "", "  ")`. -/
  marshalIndent : V → Except String String
  /-- The error of `http.NewRequestWithContext(ctx, method, url, body)`, if any. -/
  newRequestError : String → String → Option String
  /-- The call `json.Indent(&buf, b, "", "  ")`: the indented text, or `none` when it
  returns an error, which is when `b` is not valid JSON. -/
  indent : String → Option String

/-- The struct `mcp.CallToolResult`, as `mcp.NewToolResultText` and
`mcp.NewToolResultError` build it: one text content, and the error flag. -/
structure CallToolResult where
  text : String
  isError : Bool
deriving DecidableEq

/-- The constructor `mcp.NewToolResultText`. -/
def NewToolResultText (text : String) : CallToolResult := { text := text, isError := false }

/-- The constructor `mcp.NewToolResultError`. -/
def NewToolResultError (text : String) : CallToolResult := { text := text, isError := true }

/-- The outbound request as the handler sets it up: method, URL, payload and headers. -/
structure Request where
  method : String
  url : String
  body : Option String
  header : GoMap String
deriving DecidableEq

/-- What `client.Do` hands back on success: the status code and the result of
`io.ReadAll(resp.Body)`. -/
structure Response where
  statusCode : Int
  body : Except String String

/-- The value `m["const"]` of the schema property `key` when the property is a
`map[string]interface{}` and the value is not nil: the test
`!ok || m["const"] == nil` of the handler, negated. -/
def constOf (schema : GoMap Any) (key : String) : Option Any :=
  match schema.get key with
  | some (Any.map m) =>
    match GoMap.get m "const" with
    | some Any.null => none
    | some c => some c
    | none => none
  | _ => none

/-- What the handler can find under the key `key` of a property bag compiled with the
constant `c`: the constant property, or a map without const. -/
def ConstKept (key c : String) (props : GoMap Any) : Prop :=
  props.get key = some (constProperty c)
    ∨ ∃ m : GoMap Any, props.get key = some (Any.map m) ∧ GoMap.get m "const" = none

/-- The text `fmt.Sprintf("{%s}", paramName)`. -/
def placeholder (paramName : String) : String := "\x7b" ++ paramName ++ "\x7d"

/-- One turn of `for paramName, paramValue := range request.Params.Arguments`. -/
def substitute {V : Type} (rt : GoRuntime V) (endpointStr : String) (arg : String × V) :
    String :=
  if arg.1 ≠ "body" ∧ arg.1 ≠ "endpoint" ∧ arg.1 ≠ "method" then
    if strContains endpointStr (placeholder arg.1) then
      strReplaceAll endpointStr (placeholder arg.1) (rt.sprint arg.2)
    else endpointStr
  else endpointStr

/-- The whole loop over the arguments, in the order `args` lists them. -/
def resolveURL {V : Type} (rt : GoRuntime V) (endpointStr : String) (args : GoMap V) :
    String :=
  args.foldl (substitute rt) endpointStr

/-- The name Go prints for the dynamic type of a value. -/
def Any.goType : Any → String
  | Any.null => "nil"
  | Any.bool _ => "bool"
  | Any.str _ => "string"
  | Any.float _ => "float64"
  | Any.uint _ => "uint64"
  | Any.int _ => "int64"
  | Any.strs _ => "[]string"
  | Any.list _ => "[]interface \x7b\x7d"
  | Any.map _ => "map[string]interface \x7b\x7d"

/-- The panic of the type assertion `v.(string)` on a value that is not a string. -/
def conversionPanic (v : Any) : String :=
  "interface conversion: interface \x7b\x7d is " ++ v.goType ++ ", not string"

/-- The method of the request `http.NewRequestWithContext` returns: the empty method
stands for GET. -/
def requestMethod (method : String) : String :=
  if method = "" then "GET" else method

/-- Where the handler stands just before `client.Do`: it has panicked, it has returned
a result without sending anything, or it has a request to send. -/
inductive Prepared where
  | panic (msg : String)
  | reply (result : CallToolResult)
  | send (req : Request)
deriving DecidableEq

/-- The handler from the top of the closure down to the header of the request. -/
def prepare {V : Type} (rt : GoRuntime V) (tool : Tool) (args : GoMap V) : Prepared :=
  let schema := tool.inputSchema.properties
  match constOf schema "endpoint" with
  | none => Prepared.reply (NewToolResultError "Endpoint configuration not found in tool schema")
  | some endpointConst =>
    match constOf schema "method" with
    | none => Prepared.reply (NewToolResultError "Method configuration not found in tool schema")
    | some methodConst =>
      match endpointConst with
      | Any.str endpointStr =>
        match methodConst with
        | Any.str methodStr =>
          let endpointStr := resolveURL rt endpointStr args
          let continue_ (reqBody : Option String) : Prepared :=
            match rt.newRequestError methodStr endpointStr with
            | some err => Prepared.reply (NewToolResultError ("Failed to create request: " ++ err))
            | none =>
              let header : GoMap String := []
              let header := if reqBody.isSome then header.set "Content-Type" "application/json"
                else header
              Prepared.send
                { method := requestMethod methodStr, url := endpointStr, body := reqBody
                  header := header }
          match args.get "body" with
          | some bodyData =>
            match rt.marshalIndent bodyData with
            | Except.error err =>
              Prepared.reply (NewToolResultError ("Failed to marshal request body: " ++ err))
            | Except.ok bodyJSON => continue_ (some bodyJSON)
          | none => continue_ none
        | other => Prepared.panic (conversionPanic other)
      | other => Prepared.panic (conversionPanic other)

/-- The handler from the return of `client.Do` to its own return. -/
def respond {V : Type} (rt : GoRuntime V) (done : Except String Response) : CallToolResult :=
  match done with
  | Except.error err => NewToolResultError ("Request failed: " ++ err)
  | Except.ok resp =>
    match resp.body with
    | Except.error err => NewToolResultError ("Failed to read response: " ++ err)
    | Except.ok respBody =>
      if resp.statusCode ≥ 400 then
        NewToolResultError
          ("Request failed with status " ++ toString resp.statusCode ++ ": " ++ respBody)
      else
        match rt.indent respBody with
        | some prettyJSON => NewToolResultText prettyJSON
        | none => NewToolResultText respBody

/-- One invocation: the requests handed to `client.Do`, and how the handler ended
(a result returned with a nil error, or a panic). -/
structure Invocation where
  sent : List Request
  outcome : Run CallToolResult

/-- The handler returned by `createHandler(tool, logger)`, run on the arguments `args`
against the network `client`.  The log lines are not part of the model. -/
def createHandler {V : Type} (rt : GoRuntime V) (tool : Tool)
    (client : Request → Except String Response) (args : GoMap V) : Invocation :=
  match prepare rt tool args with
  | Prepared.panic msg => { sent := [], outcome := Run.panic msg }
  | Prepared.reply result => { sent := [], outcome := Run.value result }
  | Prepared.send req => { sent := [req], outcome := Run.value (respond rt (client req)) }

/-! ## The version router (`src/parser/utils.go`) -/

/-- The struct `specVersion`. -/
structure specVersion where
  swagger : String
  openAPI : String

/-- The world `utils.go` runs in: the file system, the JSON decoder, and the two
loading functions `LoadSwaggerSpec` and `LoadOpenApiSpec`, whose work (reading,
parsing, validating) is done by the loader libraries. -/
structure SpecFiles where
  /-- The call `os.Open(path)` followed by `io.ReadAll`: the error of the open, or
  else the error or the content of the read. -/
  readFile : String → Except String (Except String String)
  /-- The call `json.Unmarshal(content, &version)`. -/
  unmarshal : String → Except String specVersion
  /-- The function `LoadSwaggerSpec`. -/
  LoadSwaggerSpec : String → Except String Swagger.Doc
  /-- The function `LoadOpenApiSpec`. -/
  LoadOpenApiSpec : String → Except String OpenAPI.T

/-- The function `DetectSpecVersion`. -/
def DetectSpecVersion (env : SpecFiles) (specPath : String) : Except String String :=
  match env.readFile specPath with
  | Except.error err => Except.error ("failed to open spec file: " ++ err)
  | Except.ok (Except.error err) => Except.error ("failed to read spec file: " ++ err)
  | Except.ok (Except.ok content) =>
    match env.unmarshal content with
    | Except.error err =>
      let yamlContent := content
      if strContains yamlContent "swagger: \"2.0\"" then Except.ok "2.0"
      else if strContains yamlContent "openapi: \"3." then Except.ok "3.0"
      else Except.error ("failed to parse spec version: " ++ err)
    | Except.ok version =>
      if version.swagger ≠ "" then Except.ok version.swagger
      else if version.openAPI ≠ "" then Except.ok version.openAPI
      else Except.error "no version information found in spec"

/-- Go `strings.HasPrefix`. -/
def strHasPrefix (s p : String) : Bool := startsWith s.data p.data

/-- The function `ParseSpecRouter`. -/
def ParseSpecRouter (env : SpecFiles) (specPath : String) : Run (List Tool) :=
  match DetectSpecVersion env specPath with
  | Except.error err => Run.error ("error detecting spec version: " ++ err)
  | Except.ok version =>
    if strHasPrefix version "2." then
      match env.LoadSwaggerSpec specPath with
      | Except.error _ => Run.error "unable to load swagger spec"
      | Except.ok swaggerSpec =>
        match Swagger.ConvertSwaggerToMCPTools swaggerSpec with
        | Run.error err => Run.error ("failed to convert Swagger spec to MCP tools: " ++ err)
        | Run.panic msg => Run.panic msg
        | Run.value tools => Run.value tools
    else if strHasPrefix version "3." then
      match env.LoadOpenApiSpec specPath with
      | Except.error err => Run.error ("error loading OpenAPI spec: " ++ err)
      | Except.ok openApiSpec =>
        match OpenAPI.ConvertOpenAPIToMCPTools openApiSpec with
        | Run.error err => Run.error ("failed to convert OpenAPI spec to MCP tools: " ++ err)
        | Run.panic msg => Run.panic msg
        | Run.value tools => Run.value tools
    else Run.error ("unsupported specification version: " ++ version)

/-! ## Registration of the descriptors (`src/main.go`) -/

/-- Modelled from the spec: the method `AddTool` of the package `server`, which is not
among the sources (only its call in `main` is).  The specification has collisions of
operation ids resolve "to last-compiled-wins in the output collection (no
deduplication or rejection)": the collection holds one entry per descriptor name, and
adding a descriptor under a name already present replaces that entry. -/
def AddTool (registry : GoMap Tool) (tool : Tool) : GoMap Tool :=
  registry.set tool.name tool

/-- The loop `for _, tool := range tools` of `main`, started on the new server. -/
def registerTools (tools : List Tool) : GoMap Tool :=
  tools.foldl AddTool []

/-- The descriptor compiled last under `name`, if any. -/
def lastNamed (tools : List Tool) (name : String) : Option Tool :=
  (tools.filter (fun t => t.name == name)).getLast?

/-! ## Endpoint templates, as the specification describes path substitution -/

/-- A piece of an endpoint template: literal text, or a placeholder written `{name}`. -/
inductive Segment where
  | lit (text : String)
  | hole (name : String)

/-- The template text of a list of pieces. -/
def renderTemplate : List Segment → String
  | [] => ""
  | Segment.lit t :: rest => t ++ renderTemplate rest
  | Segment.hole n :: rest => placeholder n ++ renderTemplate rest

/-- The argument keys the handler substitutes for: all but body, endpoint and method. -/
def substitutable (k : String) : Bool := k != "body" && k != "endpoint" && k != "method"

/-- The URL of step 2 of the invocation algorithm as the specification words it: every
placeholder whose name is a substitutable argument key gives way to the text of that
argument, and everything else stays as it is. -/
def fillTemplate {V : Type} (rt : GoRuntime V) (args : GoMap V) : List Segment → String
  | [] => ""
  | Segment.lit t :: rest => t ++ fillTemplate rt args rest
  | Segment.hole n :: rest =>
    (match (if substitutable n then args.get n else none) with
      | some v => rt.sprint v
      | none => placeholder n) ++ fillTemplate rt args rest

/-- Whether the text has an opening brace. -/
def hasOpen (s : String) : Bool := s.data.contains '\x7b'

/-- Whether the text has a closing brace. -/
def hasClose (s : String) : Bool := s.data.contains '\x7d'

/-- A piece whose braces are those of a placeholder only: a literal has no opening
brace, a placeholder name has no brace. -/
def Segment.plain : Segment → Bool
  | Segment.lit t => !hasOpen t
  | Segment.hole n => !hasOpen n && !hasClose n

/-- The two keys, besides body, that the loop over the arguments passes over. -/
def reservedKey (k : String) : Bool := k == "endpoint" || k == "method"

/-- One argument applied to one piece of a template: the placeholder of a
substitutable key becomes the text of the value. -/
def fillSeg {V : Type} (rt : GoRuntime V) (seg : Segment) (arg : String × V) : Segment :=
  match seg with
  | Segment.lit t => Segment.lit t
  | Segment.hole n =>
    if substitutable arg.1 && arg.1 == n then Segment.lit (rt.sprint arg.2) else Segment.hole n

/-! ## Sample inputs -/

namespace Sample

/-- An OpenAPI schema that declares nothing but its type list. -/
def typed (types : List String) : OpenAPI.Schema :=
  OpenAPI.Schema.mk (some types) "" "" none none [] none none 0 none "" []

/-- An OpenAPI array schema with items of type `itemType`. -/
def arrayOf (itemType : String) : OpenAPI.Schema :=
  OpenAPI.Schema.mk (some ["array"]) "" "" (some (some (typed [itemType]))) none []
    none none 0 none "" []

/-- A Swagger schema that declares nothing but its type list. -/
def swaggerTyped (types : List String) : Swagger.Schema :=
  Swagger.Schema.mk types "" "" none [] [] none none none none "" []

/-- An OpenAPI operation `listItems` that declares a query parameter named endpoint. -/
def listItems : OpenAPI.Operation :=
  { operationID := "listItems", summary := "", description := ""
    parameters :=
      [some { name := "endpoint", description := "", required := false
              schema := some (some (typed ["string"])) }]
    requestBody := none }

/-- A Swagger operation `listItems` that declares a query parameter named method. -/
def swaggerListItems : Swagger.Operation :=
  { id := "listItems", summary := "", description := ""
    parameters :=
      [{ name := "method", in_ := "query", description := "", required := false
         schema := none, type := "string", format := "", enum := []
         minimum := none, maximum := none }] }

/-- An OpenAPI operation `listPets` without parameters and without a request body. -/
def listPets : OpenAPI.Operation :=
  { operationID := "listPets", summary := "List all pets", description := ""
    parameters := [], requestBody := none }

/-- A document with one path, one GET operation, and no `servers` entry. -/
def noServers : OpenAPI.T :=
  { servers := []
    paths := [("/pets", some { get := some listPets, post := none, put := none,
                               delete := none, patch := none })] }

/-- The JSON escape of one character of a string, for the quote and the backslash. -/
def jsonEscape (c : Char) : List Char :=
  if c = Char.ofNat 34 then [Char.ofNat 92, Char.ofNat 34]
  else if c = Char.ofNat 92 then [Char.ofNat 92, Char.ofNat 92]
  else [c]

/-- A runtime for string-valued arguments, standing in for the Go library on the
inputs of the examples below: `fmt.Sprint` of a string is the string, its JSON
rendering is the quoted string, a request is refused when its URL has a control
character, and `json.Indent` knows the one JSON body `{"ok":true}`. -/
def runtime : GoRuntime String :=
  { sprint := fun s => s
    marshalIndent := fun s =>
      Except.ok (String.mk (Char.ofNat 34 :: (s.data.flatMap jsonEscape ++ [Char.ofNat 34])))
    newRequestError := fun _ url =>
      if url.data.any (fun c => decide (c.toNat < 32)) then
        some "net/url: invalid control character in URL"
      else none
    indent := fun b =>
      if b = "\x7b\"ok\":true\x7d" then some "\x7b\n  \"ok\": true\n\x7d" else none }

/-- The descriptor of a GET operation on the template `/users/{id}/posts/{postId}`, as
the compilers build it. -/
def getPost : Tool :=
  { name := "getPost", description := "GET /users/\x7bid\x7d/posts/\x7bpostId\x7d"
    inputSchema :=
      { type := "object"
        properties :=
          [("endpoint", constProperty "/users/\x7bid\x7d/posts/\x7bpostId\x7d"),
           ("method", constProperty "GET")]
        required := [] } }

/-- The network of the examples: every request is answered with the given status and
body. -/
def answer (status : Int) (body : String) : Request → Except String Response :=
  fun _ => Except.ok { statusCode := status, body := Except.ok body }

/-- A Swagger document with host and base path, no scheme, and one GET operation. -/
def petsDoc : Swagger.Doc :=
  { basePath := "/v1", host := "api.test", schemes := []
    paths := [("/pets", { get := some { id := "listPets", summary := "", description := ""
                                        parameters := [] }
                          post := none, put := none, delete := none, patch := none })] }

/-- A world in which every path holds a JSON document that declares the version given,
as a Swagger version when `asSwagger` holds and as an OpenAPI version otherwise. -/
def files (asSwagger : Bool) (version : String) : SpecFiles :=
  { readFile := fun _ => Except.ok (Except.ok "")
    unmarshal := fun _ =>
      Except.ok (if asSwagger then { swagger := version, openAPI := "" }
        else { swagger := "", openAPI := version })
    LoadSwaggerSpec := fun _ => Except.ok petsDoc
    LoadOpenApiSpec := fun _ => Except.error "not an OpenAPI document" }

/-- A Swagger document with host and base path, no scheme, and one GET operation on
`/pets` that declares a query parameter named endpoint. -/
def shadowedDoc : Swagger.Doc :=
  { basePath := "/v1", host := "api.test", schemes := []
    paths := [("/pets", { get := some { id := "listPets", summary := "", description := ""
                                        parameters :=
                                          [{ name := "endpoint", in_ := "query"
                                             description := "", required := false
                                             schema := none, type := "string", format := ""
                                             enum := [], minimum := none
                                             maximum := none }] }
                          post := none, put := none, delete := none, patch := none })] }

/-- The descriptor the Swagger compiler returns for the operation of `shadowedDoc`. -/
def shadowedTool : Tool :=
  { name := "listPets", description := "GET https://api.test/v1/pets"
    inputSchema :=
      { type := "object"
        properties :=
          [("endpoint", Any.map [("type", Any.str "object")]),
           ("method", constProperty "GET")]
        required := [] } }

/-- A world in which every path holds a Swagger 2.0 document that loads as `doc`. -/
def swaggerFiles (doc : Swagger.Doc) : SpecFiles :=
  { readFile := fun _ => Except.ok (Except.ok "")
    unmarshal := fun _ => Except.ok { swagger := "2.0", openAPI := "" }
    LoadSwaggerSpec := fun _ => Except.ok doc
    LoadOpenApiSpec := fun _ => Except.error "not an OpenAPI document" }

/-- A Swagger schema of a tag: a lower-case string of 1 to 20 characters. -/
def tag : Swagger.Schema :=
  Swagger.Schema.mk ["string"] "" "" none [] [] none none (some 1) (some 20) "^[a-z]+$" []

/-- A Swagger schema of a list of tags. -/
def tagList : Swagger.Schema :=
  Swagger.Schema.mk ["array"] "" "tags of the pet" (some (some tag)) [] [] none none none none
    "" []

/-- A Swagger schema of a pet: an object with a required name and a list of tags. -/
def pet : Swagger.Schema :=
  Swagger.Schema.mk ["object"] "" "" none [("name", swaggerTyped ["string"]), ("tags", tagList)]
    ["name"] none none none none "" []

/-- An OpenAPI object schema that declares a required list and no properties. -/
def requiredOnly : OpenAPI.Schema :=
  OpenAPI.Schema.mk (some ["object"]) "" "" none none ["id"] none none 0 none "" []

/-- The same OpenAPI schema with an empty, but declared, properties map. -/
def requiredWithProperties : OpenAPI.Schema :=
  OpenAPI.Schema.mk (some ["object"]) "" "" none (some []) ["id"] none none 0 none "" []

/-- A Swagger operation `createPet` whose body parameter has the given name and is
required. -/
def createPet (bodyName : String) : Swagger.Operation :=
  { id := "createPet", summary := "", description := ""
    parameters :=
      [{ name := bodyName, in_ := "body", description := "", required := true
         schema := some pet, type := "", format := "", enum := []
         minimum := none, maximum := none }] }

/-- An OpenAPI operation `getItem` with a required parameter id in the path and a
required parameter id in the query. -/
def getItem : OpenAPI.Operation :=
  { operationID := "getItem", summary := "", description := ""
    parameters :=
      [some { name := "id", description := "in path", required := true
              schema := some (some (typed ["string"])) },
       some { name := "id", description := "in query", required := true
              schema := some (some (typed ["string"])) }]
    requestBody := none }

/-- An OpenAPI operation `uploadNote` with a required request body in plain text only. -/
def uploadNote : OpenAPI.Operation :=
  { operationID := "uploadNote", summary := "Upload a note", description := ""
    parameters := []
    requestBody := some (some
      { required := true
        content := [("text/plain", some { schema := some (some (typed ["string"])) })] }) }

/-- An OpenAPI document with one server and the two operations `uploadNote` (POST) and
`listPets` (GET) on two paths. -/
def notesAndPets : OpenAPI.T :=
  { servers := ["https://api.test"]
    paths :=
      [("/notes", some { get := none, post := some uploadNote, put := none, delete := none,
                         patch := none }),
       ("/pets", some { get := some listPets, post := none, put := none, delete := none,
                        patch := none })] }

/-- An OpenAPI operation `updateItem` with a required parameter id and a required JSON
request body. -/
def updateItem : OpenAPI.Operation :=
  { operationID := "updateItem", summary := "", description := "Replace an item"
    parameters :=
      [some { name := "id", description := "", required := true
              schema := some (some (typed ["string"])) },
       some { name := "dryRun", description := "", required := false
              schema := some (some (typed ["boolean"])) }]
    requestBody := some (some
      { required := true
        content := [("application/json", some { schema := some (some (typed ["object"])) })] }) }

/-- The descriptor `updateItem` compiles to for the verb PUT on `/items/{id}`. -/
def updateItemTool : Tool :=
  { name := "updateItem", description := "Replace an item"
    inputSchema :=
      { type := "object"
        properties :=
          [("endpoint", constProperty "https://api.test/items/\x7bid\x7d"),
           ("method", constProperty "PUT"),
           ("id", Any.map [("type", Any.str "object")]),
           ("dryRun", Any.map [("type", Any.str "object")]),
           ("body", Any.map [("type", Any.str "object")])]
        required := ["id", "body"] } }

/-- An OpenAPI operation without operation id. -/
def anonymous : OpenAPI.Operation :=
  { operationID := "", summary := "Ping", description := "", parameters := []
    requestBody := none }

/-- A Swagger operation without operation id. -/
def swaggerAnonymous : Swagger.Operation :=
  { id := "", summary := "Ping", description := "", parameters := [] }

/-- The two descriptors the document `notesAndPets` compiles to. -/
def notesAndPetsTools : List Tool :=
  [{ name := "uploadNote", description := "Upload a note"
     inputSchema :=
       { type := "object"
         properties := [("endpoint", constProperty "https://api.test/notes"),
                        ("method", constProperty "POST")]
         required := [] } },
   { name := "listPets", description := "List all pets"
     inputSchema :=
       { type := "object"
         properties := [("endpoint", constProperty "https://api.test/pets"),
                        ("method", constProperty "GET")]
         required := [] } }]

/-- An OpenAPI operation `getThing` with the given summary. -/
def getThing (summary : String) : OpenAPI.Operation :=
  { operationID := "getThing", summary := summary, description := "", parameters := []
    requestBody := none }

/-- An OpenAPI document whose two paths both declare a GET operation with the id
`getThing`. -/
def sharedId : OpenAPI.T :=
  { servers := ["https://api.test"]
    paths :=
      [("/a", some { get := some (getThing "first"), post := none, put := none,
                     delete := none, patch := none }),
       ("/b", some { get := some (getThing "second"), post := none, put := none,
                     delete := none, patch := none })] }

/-- The descriptor of `getThing` for the given path and summary. -/
def getThingTool (path summary : String) : Tool :=
  { name := "getThing", description := summary
    inputSchema :=
      { type := "object"
        properties := [("endpoint", constProperty ("https://api.test" ++ path)),
                       ("method", constProperty "GET")]
        required := [] } }

/-- A descriptor whose endpoint constant is the number 42 (as a `float64`, in bits) and
not a string. -/
def numericEndpoint : Tool :=
  { name := "getPost", description := "GET"
    inputSchema :=
      { type := "object"
        properties :=
          [("endpoint", Any.map [("type", Any.str "string"),
              ("const", Any.float 0x4045000000000000)]),
           ("method", constProperty "GET")]
        required := [] } }

/-- The descriptor of a GET operation on the template `/{a}`, as the compilers build
it. -/
def getA : Tool :=
  { name := "getA", description := "GET /\x7ba\x7d"
    inputSchema :=
      { type := "object"
        properties := [("endpoint", constProperty "/\x7ba\x7d"), ("method", constProperty "GET")]
        required := [] } }

/-- An OpenAPI operation `search` whose parameter is declared through `content`, so
that its schema reference is nil. -/
def search : OpenAPI.Operation :=
  { operationID := "search", summary := "", description := ""
    parameters := [some { name := "filter", description := "", required := false
                          schema := none }]
    requestBody := none }

/-- An OpenAPI operation `createNote` whose JSON media type declares no schema. -/
def createNote : OpenAPI.Operation :=
  { operationID := "createNote", summary := "", description := "", parameters := []
    requestBody := some (some
      { required := true, content := [("application/json", some { schema := none })] }) }

/-- A document with one server and the operation `op` as POST on `/notes`. -/
def oneOperation (op : OpenAPI.Operation) : OpenAPI.T :=
  { servers := ["https://api.test"]
    paths := [("/notes", some { get := none, post := some op, put := none, delete := none,
                                patch := none })] }

/-- A Swagger query parameter `limit` that declares its type, format, enum and bounds
on itself. -/
def limit : Swagger.Parameter :=
  { name := "limit", in_ := "query", description := "page size", required := false
    schema := none, type := "integer", format := "int32"
    enum := [Any.int 10, Any.int 50], minimum := some 1, maximum := some 100 }

/-- A Swagger operation `listPets` with the parameters `limit` and a header. -/
def swaggerListPets : Swagger.Operation :=
  { id := "listPets", summary := "", description := ""
    parameters :=
      [limit,
       { name := "X-Trace", in_ := "header", description := "", required := false
         schema := none, type := "string", format := "", enum := []
         minimum := none, maximum := none }] }

end Sample

/-! ## Lemmas on Go maps -/

namespace GoMap

theorem get_set_self {α : Type} (m : GoMap α) (k : String) (v : α) :
    (m.set k v).get k = some v := by
  induction m with
  | nil => simp [set, get]
  | cons p rest ih =>
    obtain ⟨k1, w⟩ := p
    by_cases h : k1 = k
    · simp [set, get, h]
    · simp [set, get, h, ih]

theorem get_set_ne {α : Type} (m : GoMap α) (k k1 : String) (v : α) (h : k ≠ k1) :
    (m.set k v).get k1 = m.get k1 := by
  induction m with
  | nil => simp [set, get, h]
  | cons p rest ih =>
    obtain ⟨k2, w⟩ := p
    by_cases h2 : k2 = k
    · subst h2
      simp [set, get, h]
    · by_cases h3 : k2 = k1
      · subst h3
        simp [set, get, h2]
      · simp [set, get, h2, h3, ih]

end GoMap

/-! ## C1: the endpoint and method constants of a compiled descriptor -/

/-- C1, the code at the failing input: an operation that declares a parameter named
endpoint (OpenAPI) or method (Swagger) compiles to a descriptor whose property of that
name is the translated parameter schema, not the constant: the handler finds no
constant in it. -/
theorem C1_declared_parameter_replaces_constant :
    (∃ tool, OpenAPI.ConvertOperationToMCPTool Sample.listItems "GET" "https://api.test/items"
        = Run.value (some tool)
      ∧ tool.inputSchema.properties.get "endpoint" = some (Any.map [("type", Any.str "object")])
      ∧ constOf tool.inputSchema.properties "endpoint" = none
      ∧ tool.inputSchema.properties.get "method" = some (constProperty "GET"))
    ∧ (∃ tool, Swagger.convertOperationToMCPTool Sample.swaggerListItems "GET"
        "https://api.test/items" = Run.value (some tool)
      ∧ tool.inputSchema.properties.get "method" = some (Any.map [("type", Any.str "object")])
      ∧ constOf tool.inputSchema.properties "method" = none
      ∧ tool.inputSchema.properties.get "endpoint"
          = some (constProperty "https://api.test/items")) :=
  ⟨⟨_, rfl, rfl, rfl, rfl⟩, ⟨_, rfl, rfl, rfl, rfl⟩⟩

/-! ## C8: one descriptor per declared operation (OpenAPI) -/

/-- C8, the code at the failing input: on a document that declares no server,
`ConvertOpenAPIToMCPTools` panics on `spec.Servers[0]` and returns no list at all. -/
theorem C8_no_servers_panics :
    OpenAPI.ConvertOpenAPIToMCPTools Sample.noServers
      = Run.panic "runtime error: index out of range [0] with length 0" := rfl

/-! ## C10: the type of a translated OpenAPI schema -/

/-- C10, the code at the failing input: `ConvertSchemaToMap` writes the type "object"
for a schema declared string and for a schema declared array (whose items are
translated, again with type "object"). -/
theorem C10_declared_type_becomes_object :
    (OpenAPI.ConvertSchemaToMap (some (Sample.typed ["string"]))).get "type"
        = some (Any.str "object")
    ∧ OpenAPI.ConvertSchemaToMap (some (Sample.arrayOf "integer"))
        = [("type", Any.str "object"), ("items", Any.map [("type", Any.str "object")])] :=
  ⟨rfl, rfl⟩

/-! ## Lemmas on argument maps and the reserved keys -/

namespace GoMap

theorem get_eq_none_iff {α : Type} (m : GoMap α) (k : String) :
    m.get k = none ↔ k ∉ m.keys := by
  induction m with
  | nil => simp [get, keys]
  | cons p rest ih =>
    obtain ⟨k1, w⟩ := p
    by_cases h : k1 = k
    · simp [get, keys, h]
    · have h1 : ¬ k = k1 := fun e => h e.symm
      simp only [keys] at ih
      simp [get, keys, h, h1, ih]

theorem get_eq_some_iff {α : Type} (m : GoMap α) (hm : m.keys.Nodup) (k : String) (v : α) :
    m.get k = some v ↔ (k, v) ∈ m := by
  induction m with
  | nil => simp [get]
  | cons p rest ih =>
    obtain ⟨k1, w⟩ := p
    simp only [keys, List.map_cons, List.nodup_cons] at hm
    have ih1 := ih hm.2
    by_cases h : k1 = k
    · subst h
      have hnot : (k1, v) ∉ rest := fun hin => hm.1 (List.mem_map_of_mem Prod.fst hin)
      simp only [get, if_true, List.mem_cons, Prod.mk.injEq, true_and, Option.some.injEq]
      constructor
      · intro e
        exact Or.inl e.symm
      · rintro (e | e)
        · exact e.symm
        · exact absurd e hnot
    · have h1 : ¬ k = k1 := fun e => h e.symm
      simp [get, h, h1, ih1]

theorem get_perm {α : Type} {m1 m2 : GoMap α} (hp : List.Perm m1 m2) (hm : m1.keys.Nodup)
    (k : String) : m1.get k = m2.get k := by
  have hm2 : m2.keys.Nodup := (List.Perm.nodup_iff (hp.map Prod.fst)).1 hm
  cases h2 : m2.get k with
  | none =>
    rw [get_eq_none_iff] at h2 ⊢
    intro hin
    exact h2 ((hp.map Prod.fst).mem_iff.1 hin)
  | some v =>
    rw [get_eq_some_iff m2 hm2] at h2
    rw [get_eq_some_iff m1 hm]
    exact hp.mem_iff.2 h2

end GoMap

theorem substitute_reserved {V : Type} (rt : GoRuntime V) (e : String) (arg : String × V)
    (h : reservedKey arg.1 = true) : substitute rt e arg = e := by
  unfold substitute
  simp only [reservedKey, Bool.or_eq_true, beq_iff_eq] at h
  rcases h with h | h <;> simp [h]

theorem resolveURL_filter {V : Type} (rt : GoRuntime V) (args : GoMap V) (e : String) :
    resolveURL rt e args = resolveURL rt e (args.filter (fun a => !reservedKey a.1)) := by
  induction args generalizing e with
  | nil => rfl
  | cons a rest ih =>
    by_cases h : reservedKey a.1 = true
    · simp only [resolveURL, List.foldl_cons, List.filter_cons, h, Bool.not_true]
      rw [substitute_reserved rt e a h]
      exact ih e
    · simp only [Bool.not_eq_true] at h
      simp only [resolveURL, List.foldl_cons, List.filter_cons, h, Bool.not_false, if_true]
      exact ih _

theorem prepare_congr {V : Type} (rt : GoRuntime V) (tool : Tool) (a b : GoMap V)
    (hurl : ∀ e, resolveURL rt e a = resolveURL rt e b)
    (hbody : a.get "body" = b.get "body") : prepare rt tool a = prepare rt tool b := by
  unfold prepare
  simp only [hurl, hbody]

/-! ## C3 and C4: path substitution -/

theorem startsWith_append (p s : List Char) : startsWith (p ++ s) p = true := by
  induction p with
  | nil => cases s <;> rfl
  | cons c p ih => simp [startsWith, ih]

theorem replaceChars_skip (old new w s : List Char) :
    replaceChars old new w.length (w ++ s) = replaceChars old new 0 s := by
  induction w with
  | nil => rfl
  | cons c w ih => simpa [replaceChars] using ih

theorem replaceChars_passes (o : Char) (old new w s : List Char) (hw : ∀ c ∈ w, c ≠ o) :
    replaceChars (o :: old) new 0 (w ++ s) = w ++ replaceChars (o :: old) new 0 s := by
  induction w with
  | nil => rfl
  | cons c w ih =>
    have hc : c ≠ o := hw c (List.mem_cons_self _ _)
    have ih1 := ih (fun d hd => hw d (List.mem_cons_of_mem _ hd))
    simp [replaceChars, startsWith, hc, ih1]

theorem startsWith_name (cl : Char) (s : List Char) (n k : List Char)
    (hn : ∀ c ∈ n, c ≠ cl) (hk : ∀ c ∈ k, c ≠ cl)
    (h : startsWith (n ++ cl :: s) (k ++ [cl]) = true) : n = k := by
  induction n generalizing k with
  | nil =>
    cases k with
    | nil => rfl
    | cons c k =>
      have hc : c ≠ cl := hk c (List.mem_cons_self _ _)
      simp [startsWith, Ne.symm hc] at h
  | cons d n ih =>
    have hd : d ≠ cl := hn d (List.mem_cons_self _ _)
    cases k with
    | nil => simp [startsWith, hd] at h
    | cons c k =>
      simp only [List.cons_append, startsWith, Bool.and_eq_true, beq_iff_eq] at h
      rw [h.1, ih k (fun x hx => hn x (List.mem_cons_of_mem _ hx))
        (fun x hx => hk x (List.mem_cons_of_mem _ hx)) h.2]

theorem replaceChars_absent (old new s : List Char) (h : containsChars s old = false) :
    replaceChars old new 0 s = s := by
  induction s with
  | nil => rfl
  | cons c s ih =>
    simp only [containsChars, Bool.or_eq_false_iff] at h
    simp [replaceChars, h.1, ih h.2]

theorem placeholder_data (k : String) :
    (placeholder k).data = '\x7b' :: (k.data ++ ['\x7d']) := by
  simp [placeholder, String.data_append]

theorem renderTemplate_lit (t : String) (rest : List Segment) :
    (renderTemplate (Segment.lit t :: rest)).data = t.data ++ (renderTemplate rest).data := by
  simp [renderTemplate, String.data_append]

theorem renderTemplate_hole (n : String) (rest : List Segment) :
    (renderTemplate (Segment.hole n :: rest)).data
      = '\x7b' :: ((n.data ++ ['\x7d']) ++ (renderTemplate rest).data) := by
  simp [renderTemplate, String.data_append, placeholder_data]

theorem not_hasOpen {s : String} (h : hasOpen s = false) : ∀ c ∈ s.data, c ≠ '\x7b' := by
  intro c hc e
  subst e
  simp [hasOpen, hc] at h

theorem not_hasClose {s : String} (h : hasClose s = false) : ∀ c ∈ s.data, c ≠ '\x7d' := by
  intro c hc e
  subst e
  simp [hasClose, hc] at h

/-- Replacing the placeholder of `k` in the text of a plain template replaces exactly
the pieces that are the placeholder of `k`. -/
theorem replaceChars_renderTemplate (k t : String) (hk : hasClose k = false)
    (segs : List Segment) (hsegs : ∀ seg ∈ segs, seg.plain = true) :
    replaceChars (placeholder k).data t.data 0 (renderTemplate segs).data
      = (renderTemplate (segs.map (fun seg =>
          match seg with
          | Segment.lit x => Segment.lit x
          | Segment.hole n => if k = n then Segment.lit t else Segment.hole n))).data := by
  induction segs with
  | nil => rfl
  | cons seg rest ih =>
    have ih1 := ih (fun x hx => hsegs x (List.mem_cons_of_mem _ hx))
    have hseg := hsegs seg (List.mem_cons_self _ _)
    cases seg with
    | lit x =>
      simp only [Segment.plain, Bool.not_eq_true'] at hseg
      rw [List.map_cons, renderTemplate_lit, renderTemplate_lit, placeholder_data,
        replaceChars_passes _ _ _ _ _ (not_hasOpen hseg), ← placeholder_data, ih1]
    | hole n =>
      simp only [Segment.plain, Bool.and_eq_true, Bool.not_eq_true'] at hseg
      by_cases hkn : k = n
      · subst hkn
        rw [List.map_cons, renderTemplate_hole]
        simp only [if_true]
        rw [renderTemplate_lit, ← ih1, placeholder_data]
        have hs : startsWith ('\x7b' :: ((k.data ++ ['\x7d']) ++ (renderTemplate rest).data))
            ('\x7b' :: (k.data ++ ['\x7d'])) = true := by
          have := startsWith_append ('\x7b' :: (k.data ++ ['\x7d'])) (renderTemplate rest).data
          simpa using this
        rw [replaceChars, if_pos hs]
        have hl : ('\x7b' :: (k.data ++ ['\x7d'])).length - 1 = (k.data ++ ['\x7d']).length := by
          simp
        rw [hl, replaceChars_skip]
      · rw [List.map_cons, renderTemplate_hole]
        simp only [hkn, if_false]
        rw [renderTemplate_hole, ← ih1, placeholder_data]
        have hs : startsWith ('\x7b' :: ((n.data ++ ['\x7d']) ++ (renderTemplate rest).data))
            ('\x7b' :: (k.data ++ ['\x7d'])) = false := by
          rw [Bool.eq_false_iff]
          intro h
          simp only [startsWith, beq_self_eq_true, Bool.true_and, List.append_assoc,
            List.singleton_append] at h
          have := startsWith_name '\x7d' _ n.data k.data (not_hasClose hseg.2) (not_hasClose hk) h
          exact hkn (String.ext this.symm)
        rw [replaceChars, if_neg (by simpa using hs)]
        have hw : ∀ c ∈ n.data ++ ['\x7d'], c ≠ '\x7b' := by
          intro c hc
          rcases List.mem_append.1 hc with h1 | h1
          · exact not_hasOpen hseg.1 c h1
          · simp only [List.mem_singleton] at h1
            subst h1
            decide
        rw [replaceChars_passes _ _ _ _ _ hw]

theorem substitutable_iff (k : String) :
    (k ≠ "body" ∧ k ≠ "endpoint" ∧ k ≠ "method") ↔ substitutable k = true := by
  simp [substitutable, and_assoc]

theorem fillSeg_plain {V : Type} (rt : GoRuntime V) (seg : Segment) (arg : String × V)
    (hseg : seg.plain = true)
    (harg : substitutable arg.1 = true → hasOpen (rt.sprint arg.2) = false) :
    (fillSeg rt seg arg).plain = true := by
  cases seg with
  | lit t => exact hseg
  | hole n =>
    unfold fillSeg
    by_cases h : (substitutable arg.1 && arg.1 == n) = true
    · simp only [h, if_true, Segment.plain, Bool.not_eq_true']
      simp only [Bool.and_eq_true] at h
      exact harg h.1
    · simp only [h, if_false]
      exact hseg

theorem substitute_renderTemplate {V : Type} (rt : GoRuntime V) (segs : List Segment)
    (arg : String × V) (hsegs : ∀ seg ∈ segs, seg.plain = true)
    (harg : substitutable arg.1 = true → hasClose arg.1 = false) :
    substitute rt (renderTemplate segs) arg
      = renderTemplate (segs.map (fun seg => fillSeg rt seg arg)) := by
  unfold substitute
  by_cases hs : substitutable arg.1 = true
  · have hfun : (fun seg => fillSeg rt seg arg)
        = (fun seg => match seg with
            | Segment.lit x => Segment.lit x
            | Segment.hole n => if arg.1 = n then Segment.lit (rt.sprint arg.2)
                else Segment.hole n) := by
      funext seg
      cases seg with
      | lit x => rfl
      | hole n => simp [fillSeg, hs]
    rw [if_pos ((substitutable_iff arg.1).2 hs), hfun]
    apply String.ext
    rw [← replaceChars_renderTemplate arg.1 (rt.sprint arg.2) (harg hs) segs hsegs]
    by_cases hc : strContains (renderTemplate segs) (placeholder arg.1) = true
    · rw [if_pos hc]
      rfl
    · rw [if_neg hc]
      simp only [Bool.not_eq_true] at hc
      exact (replaceChars_absent _ _ _ hc).symm
  · rw [if_neg (fun h => hs ((substitutable_iff arg.1).1 h))]
    have hfun : ∀ seg ∈ segs, fillSeg rt seg arg = seg := by
      intro seg _
      cases seg with
      | lit x => rfl
      | hole n => simp [fillSeg, hs]
    rw [List.map_congr_left hfun]
    simp

theorem resolveURL_renderTemplate {V : Type} (rt : GoRuntime V) (order : GoMap V)
    (segs : List Segment) (hsegs : ∀ seg ∈ segs, seg.plain = true)
    (hargs : ∀ arg ∈ order, substitutable arg.1 = true →
      hasClose arg.1 = false ∧ hasOpen (rt.sprint arg.2) = false) :
    resolveURL rt (renderTemplate segs) order
      = renderTemplate (segs.map (fun seg => order.foldl (fillSeg rt) seg)) := by
  induction order generalizing segs with
  | nil => simp [resolveURL]
  | cons arg rest ih =>
    have harg := hargs arg (List.mem_cons_self _ _)
    have hrest := fun a ha => hargs a (List.mem_cons_of_mem _ ha)
    simp only [resolveURL, List.foldl_cons]
    rw [substitute_renderTemplate rt segs arg hsegs (fun h => (harg h).1)]
    have hplain : ∀ seg ∈ segs.map (fun seg => fillSeg rt seg arg), seg.plain = true := by
      intro seg hseg
      obtain ⟨s0, hs0, rfl⟩ := List.mem_map.1 hseg
      exact fillSeg_plain rt s0 arg (hsegs s0 hs0) (fun h => (harg h).2)
    have := ih _ hplain hrest
    simp only [resolveURL] at this
    rw [this, List.map_map]
    rfl

theorem foldl_fillSeg_lit {V : Type} (rt : GoRuntime V) (order : GoMap V) (t : String) :
    order.foldl (fillSeg rt) (Segment.lit t) = Segment.lit t := by
  induction order with
  | nil => rfl
  | cons arg rest ih => simpa [fillSeg] using ih

theorem foldl_fillSeg_hole {V : Type} (rt : GoRuntime V) (order : GoMap V) (n : String) :
    order.foldl (fillSeg rt) (Segment.hole n)
      = (match (if substitutable n then order.get n else none) with
          | some v => Segment.lit (rt.sprint v)
          | none => Segment.hole n) := by
  induction order with
  | nil => simp [GoMap.get]
  | cons arg rest ih =>
    obtain ⟨k, v⟩ := arg
    by_cases hk : k = n
    · subst hk
      by_cases hs : substitutable k = true
      · simp [fillSeg, hs, GoMap.get, foldl_fillSeg_lit]
      · simp only [Bool.not_eq_true] at hs
        simp only [hs] at ih
        simp [fillSeg, hs, ih]
    · simp [fillSeg, hk, GoMap.get, ih]

theorem renderTemplate_foldl {V : Type} (rt : GoRuntime V) (order : GoMap V)
    (segs : List Segment) :
    renderTemplate (segs.map (fun seg => order.foldl (fillSeg rt) seg))
      = fillTemplate rt order segs := by
  induction segs with
  | nil => rfl
  | cons seg rest ih =>
    cases seg with
    | lit t => simp [renderTemplate, fillTemplate, foldl_fillSeg_lit, ih]
    | hole n =>
      simp only [List.map_cons, foldl_fillSeg_hole, fillTemplate]
      cases (if substitutable n then order.get n else none) with
      | none => simp [renderTemplate, ih]
      | some v => simp [renderTemplate, ih]

theorem fillTemplate_congr {V : Type} (rt : GoRuntime V) (a b : GoMap V)
    (h : ∀ k, a.get k = b.get k) (segs : List Segment) :
    fillTemplate rt a segs = fillTemplate rt b segs := by
  induction segs with
  | nil => rfl
  | cons seg rest ih =>
    cases seg with
    | lit t => simp [fillTemplate, ih]
    | hole n => simp [fillTemplate, ih, h n]

/-- C3 (amended): for a template whose braces only delimit placeholders, and arguments
(each key once) whose substitutable keys have no closing brace and whose substitutable
values have a text without opening brace, the resolved URL is, in every visiting
order, the template with every placeholder of a substitutable argument key replaced by
the text of its value and nothing else changed. -/
theorem C3_path_substitution {V : Type} (rt : GoRuntime V) (segs : List Segment)
    (args : GoMap V) (hsegs : ∀ seg ∈ segs, seg.plain = true) (hkeys : args.keys.Nodup)
    (hargs : ∀ arg ∈ args, substitutable arg.1 = true →
      hasClose arg.1 = false ∧ hasOpen (rt.sprint arg.2) = false)
    (order : GoMap V) (horder : List.Perm order args) :
    resolveURL rt (renderTemplate segs) order = fillTemplate rt args segs := by
  have hk : order.keys.Nodup := (List.Perm.nodup_iff (horder.map Prod.fst)).2 hkeys
  rw [resolveURL_renderTemplate rt order segs hsegs
      (fun arg ha => hargs arg (horder.mem_iff.1 ha)),
    renderTemplate_foldl]
  exact fillTemplate_congr rt order args (fun k => GoMap.get_perm horder hk k) segs

/-- C3 at the example of the specification, the arguments visited in either order. -/
theorem C3_path_substitution_witness :
    renderTemplate [Segment.lit "/users/", Segment.hole "id", Segment.lit "/posts/",
        Segment.hole "postId"] = "/users/\x7bid\x7d/posts/\x7bpostId\x7d"
    ∧ fillTemplate Sample.runtime [("id", "7"), ("postId", "42")]
        [Segment.lit "/users/", Segment.hole "id", Segment.lit "/posts/",
          Segment.hole "postId"] = "/users/7/posts/42"
    ∧ resolveURL Sample.runtime (renderTemplate [Segment.lit "/users/", Segment.hole "id",
          Segment.lit "/posts/", Segment.hole "postId"]) [("postId", "42"), ("id", "7")]
        = fillTemplate Sample.runtime [("id", "7"), ("postId", "42")]
            [Segment.lit "/users/", Segment.hole "id", Segment.lit "/posts/",
              Segment.hole "postId"] :=
  ⟨by decide, by decide,
    C3_path_substitution Sample.runtime _ [("id", "7"), ("postId", "42")]
      (by decide) (by decide) (by decide) [("postId", "42"), ("id", "7")]
      (List.Perm.swap _ _ _)⟩

/-- C3 as stated fails: with the template `/{a}` and the arguments a = `{b}`, b = x,
visited in this order, the placeholder of a does not end up replaced by the text of
the value of a: the text is rewritten in turn. -/
theorem C3_counterexample :
    renderTemplate [Segment.lit "/", Segment.hole "a"] = "/\x7ba\x7d"
    ∧ fillTemplate Sample.runtime [("a", "\x7bb\x7d"), ("b", "x")]
        [Segment.lit "/", Segment.hole "a"] = "/\x7bb\x7d"
    ∧ resolveURL Sample.runtime "/\x7ba\x7d" [("a", "\x7bb\x7d"), ("b", "x")] = "/x"
    ∧ resolveURL Sample.runtime (renderTemplate [Segment.lit "/", Segment.hole "a"])
        [("a", "\x7bb\x7d"), ("b", "x")]
      ≠ fillTemplate Sample.runtime [("a", "\x7bb\x7d"), ("b", "x")]
        [Segment.lit "/", Segment.hole "a"] := by
  decide

/-- C4 (amended): an extra argument whose placeholder does not occur in the URL as the
arguments visited before it have rewritten it leaves the resolved URL unchanged; it is
not appended to the URL in any form. -/
theorem C4_unmatched_argument_dropped {V : Type} (rt : GoRuntime V) (template : String)
    (before after : GoMap V) (k : String) (v : V)
    (h : strContains (resolveURL rt template before) (placeholder k) = false) :
    resolveURL rt template (before ++ (k, v) :: after)
      = resolveURL rt template (before ++ after) := by
  simp only [resolveURL, List.foldl_append, List.foldl_cons] at h ⊢
  generalize List.foldl (substitute rt) template before = e at h ⊢
  have hs : substitute rt e (k, v) = e := by
    unfold substitute
    simp [h]
  rw [hs]

/-- C4 at a concrete input: the argument verbose has no placeholder in the URL and is
dropped. -/
theorem C4_unmatched_argument_dropped_witness :
    strContains (resolveURL Sample.runtime "/users/\x7bid\x7d" [("id", "7")])
        (placeholder "verbose") = false
    ∧ resolveURL Sample.runtime "/users/\x7bid\x7d" ([("id", "7")] ++ ("verbose", "true") :: [])
        = resolveURL Sample.runtime "/users/\x7bid\x7d" ([("id", "7")] ++ [])
    ∧ resolveURL Sample.runtime "/users/\x7bid\x7d" [("id", "7"), ("verbose", "true")]
        = "/users/7" :=
  ⟨by decide,
    C4_unmatched_argument_dropped Sample.runtime "/users/\x7bid\x7d" [("id", "7")] []
      "verbose" "true" (by decide),
    by decide⟩

/-- C4 as stated fails: the placeholder of b does not occur in the template `/{a}`,
yet adding b = x to the arguments a = `{b}` changes the resolved URL when b is visited
after a. -/
theorem C4_counterexample :
    strContains "/\x7ba\x7d" (placeholder "b") = false
    ∧ resolveURL Sample.runtime "/\x7ba\x7d" [("a", "\x7bb\x7d")] = "/\x7bb\x7d"
    ∧ resolveURL Sample.runtime "/\x7ba\x7d" [("a", "\x7bb\x7d"), ("b", "x")] = "/x"
    ∧ resolveURL Sample.runtime "/\x7ba\x7d" [("a", "\x7bb\x7d"), ("b", "x")]
      ≠ resolveURL Sample.runtime "/\x7ba\x7d" [("a", "\x7bb\x7d")] := by
  decide

/-! ## C5: the payload -/

/-- C5: whenever the handler gets as far as a request, the request has a payload
exactly when the arguments have the key body; then the payload is the indented JSON
of that value and the only header is the JSON content type, and otherwise there is
neither payload nor header.  The method of the descriptor plays no part. -/
theorem C5_payload_iff_body {V : Type} (rt : GoRuntime V) (tool : Tool) (args : GoMap V)
    (req : Request) (h : prepare rt tool args = Prepared.send req) :
    (req.body.isSome = true ↔ (args.get "body").isSome = true)
    ∧ (∀ bodyData, args.get "body" = some bodyData →
        ∃ bodyJSON, rt.marshalIndent bodyData = Except.ok bodyJSON ∧ req.body = some bodyJSON
          ∧ req.header = [("Content-Type", "application/json")])
    ∧ (args.get "body" = none → req.body = none ∧ req.header = []) := by
  cases he : constOf tool.inputSchema.properties "endpoint" with
  | none => simp [prepare, he] at h
  | some ec =>
    cases hm : constOf tool.inputSchema.properties "method" with
    | none => simp [prepare, he, hm] at h
    | some mc =>
      cases ec <;> try (simp [prepare, he, hm] at h; done)
      cases mc <;> try (simp [prepare, he, hm] at h; done)
      cases hb : args.get "body" with
      | none =>
        simp only [prepare, he, hm, hb] at h
        split at h
        · cases h
        · cases h
          simp
      | some bodyData =>
        simp only [prepare, he, hm, hb] at h
        cases hj : rt.marshalIndent bodyData with
        | error err => simp [hj] at h
        | ok bodyJSON =>
          simp only [hj] at h
          split at h
          · cases h
          · cases h
            refine ⟨by simp, ?_, by simp⟩
            intro bd hbd
            cases hbd
            exact ⟨bodyJSON, hj, rfl, rfl⟩

/-- C5 at a concrete input: a descriptor with the verb GET, called with a body. -/
theorem C5_payload_iff_body_witness :
    prepare Sample.runtime Sample.getPost [("id", "7"), ("postId", "42"), ("body", "hi")]
      = Prepared.send
          { method := "GET", url := "/users/7/posts/42", body := some "\"hi\""
            header := [("Content-Type", "application/json")] }
    ∧ ((some "\"hi\"" : Option String).isSome = true
        ↔ (GoMap.get [("id", "7"), ("postId", "42"), ("body", "hi")] "body").isSome = true)
    ∧ (∀ bodyData, GoMap.get [("id", "7"), ("postId", "42"), ("body", "hi")] "body"
          = some bodyData →
        ∃ bodyJSON, Sample.runtime.marshalIndent bodyData = Except.ok bodyJSON
          ∧ some "\"hi\"" = some bodyJSON
          ∧ [("Content-Type", "application/json")] = [("Content-Type", "application/json")])
    ∧ (GoMap.get [("id", "7"), ("postId", "42"), ("body", "hi")] "body" = none →
        (some "\"hi\"" : Option String) = none
          ∧ [("Content-Type", "application/json")] = ([] : GoMap String)) :=
  ⟨by decide,
    C5_payload_iff_body Sample.runtime Sample.getPost
      [("id", "7"), ("postId", "42"), ("body", "hi")]
      { method := "GET", url := "/users/7/posts/42", body := some "\"hi\""
        header := [("Content-Type", "application/json")] } (by decide)⟩

/-! ## C6 and C7: the result of a completed call -/

/-- C6: when the call completes with status `s` and body `b`, the handler returns
(with a nil error) a result that is an error result exactly when `s ≥ 400`, and then
its text is the fixed opening words, `s` in decimal, a colon and `b` unchanged. -/
theorem C6_error_status {V : Type} (rt : GoRuntime V) (tool : Tool)
    (client : Request → Except String Response) (args : GoMap V) (req : Request)
    (resp : Response) (b : String)
    (hsend : prepare rt tool args = Prepared.send req)
    (hresp : client req = Except.ok resp) (hbody : resp.body = Except.ok b) :
    ∃ result, (createHandler rt tool client args).outcome = Run.value result
      ∧ (createHandler rt tool client args).sent = [req]
      ∧ (result.isError = true ↔ resp.statusCode ≥ 400)
      ∧ (resp.statusCode ≥ 400 → result.text
          = "Request failed with status " ++ toString resp.statusCode ++ ": " ++ b) := by
  refine ⟨respond rt (Except.ok resp), ?_, ?_, ?_, ?_⟩
  · simp [createHandler, hsend, hresp]
  · simp [createHandler, hsend]
  · unfold respond
    simp only [hbody]
    by_cases hs : resp.statusCode ≥ 400
    · simp [hs, NewToolResultError]
    · simp only [hs, if_false, iff_false]
      split <;> simp [NewToolResultText]
  · intro hs
    unfold respond
    simp [hbody, hs, NewToolResultError]

/-- C6 at the example of the specification: status 404 with the body
`{"error":"not found"}`. -/
theorem C6_error_status_witness :
    (createHandler Sample.runtime Sample.getPost
        (Sample.answer 404 "\x7b\"error\":\"not found\"\x7d")
        [("id", "7"), ("postId", "42")]).outcome
      = Run.value
          { text := "Request failed with status 404: \x7b\"error\":\"not found\"\x7d"
            isError := true }
    ∧ ∃ result, (createHandler Sample.runtime Sample.getPost
          (Sample.answer 404 "\x7b\"error\":\"not found\"\x7d")
          [("id", "7"), ("postId", "42")]).outcome = Run.value result
      ∧ (createHandler Sample.runtime Sample.getPost
          (Sample.answer 404 "\x7b\"error\":\"not found\"\x7d")
          [("id", "7"), ("postId", "42")]).sent
        = [{ method := "GET", url := "/users/7/posts/42", body := none, header := [] }]
      ∧ (result.isError = true ↔ (404 : Int) ≥ 400)
      ∧ ((404 : Int) ≥ 400 → result.text
          = "Request failed with status " ++ toString (404 : Int) ++ ": "
            ++ "\x7b\"error\":\"not found\"\x7d") :=
  ⟨rfl,
    C6_error_status Sample.runtime Sample.getPost
      (Sample.answer 404 "\x7b\"error\":\"not found\"\x7d")
      [("id", "7"), ("postId", "42")]
      { method := "GET", url := "/users/7/posts/42", body := none, header := [] }
      { statusCode := 404, body := Except.ok "\x7b\"error\":\"not found\"\x7d" }
      "\x7b\"error\":\"not found\"\x7d" (by decide) rfl rfl⟩

/-- C7: when the call completes with a status below 400 and body `b`, the handler
returns (with a nil error) a text result that is not an error: the indented rendering
of `b` when `json.Indent` accepts `b`, and `b` itself when it does not. -/
theorem C7_success_text {V : Type} (rt : GoRuntime V) (tool : Tool)
    (client : Request → Except String Response) (args : GoMap V) (req : Request)
    (resp : Response) (b : String)
    (hsend : prepare rt tool args = Prepared.send req)
    (hresp : client req = Except.ok resp) (hbody : resp.body = Except.ok b)
    (hstatus : resp.statusCode < 400) :
    (∀ prettyJSON, rt.indent b = some prettyJSON →
        (createHandler rt tool client args).outcome
          = Run.value { text := prettyJSON, isError := false })
    ∧ (rt.indent b = none →
        (createHandler rt tool client args).outcome
          = Run.value { text := b, isError := false }) := by
  have hs : ¬ resp.statusCode ≥ 400 := not_le.2 hstatus
  constructor
  · intro prettyJSON hp
    simp [createHandler, hsend, hresp, respond, hbody, hs, hp, NewToolResultText]
  · intro hp
    simp [createHandler, hsend, hresp, respond, hbody, hs, hp, NewToolResultText]

/-- C7 at a concrete input: a 200 response whose body is not JSON comes back as it is,
and one whose body is JSON comes back indented. -/
theorem C7_success_text_witness :
    ((∀ prettyJSON, Sample.runtime.indent "pong" = some prettyJSON →
        (createHandler Sample.runtime Sample.getPost (Sample.answer 200 "pong")
          [("id", "7"), ("postId", "42")]).outcome
          = Run.value { text := prettyJSON, isError := false })
      ∧ (Sample.runtime.indent "pong" = none →
        (createHandler Sample.runtime Sample.getPost (Sample.answer 200 "pong")
          [("id", "7"), ("postId", "42")]).outcome
          = Run.value { text := "pong", isError := false }))
    ∧ Sample.runtime.indent "pong" = none
    ∧ (createHandler Sample.runtime Sample.getPost
          (Sample.answer 200 "\x7b\"ok\":true\x7d") [("id", "7"), ("postId", "42")]).outcome
        = Run.value { text := "\x7b\n  \"ok\": true\n\x7d", isError := false } :=
  ⟨C7_success_text Sample.runtime Sample.getPost (Sample.answer 200 "pong")
      [("id", "7"), ("postId", "42")]
      { method := "GET", url := "/users/7/posts/42", body := none, header := [] }
      { statusCode := 200, body := Except.ok "pong" } "pong" (by decide) rfl rfl (by decide),
    by decide, rfl⟩

/-! ## C9: the base URL of a Swagger document -/

theorem get_setIf_ne (cond : Bool) (m : GoMap Any) (k k1 : String) (v : Any) (h : k ≠ k1) :
    (OpenAPI.setIf cond m k v).get k1 = m.get k1 := by
  unfold OpenAPI.setIf
  split
  · exact GoMap.get_set_ne m k k1 v h
  · rfl

theorem get_setSome_ne (m : GoMap Any) (k k1 : String) (v : Option Any) (h : k ≠ k1) :
    (OpenAPI.setSome m k v).get k1 = m.get k1 := by
  unfold OpenAPI.setSome
  split
  · exact GoMap.get_set_ne m _ k1 _ h
  · rfl

theorem Run.andThen_value {α β : Type} (r : Run α) (f : α → Run β) (b : β)
    (h : r.andThen f = Run.value b) : ∃ a, r = Run.value a ∧ f a = Run.value b := by
  cases r with
  | value a => exact ⟨a, rfl, h⟩
  | error e => cases h
  | panic e => cases h

theorem compileVerb_value {Op : Type} (convert : Op → String → String → Run (Option Tool))
    (op : Option Op) (verb fullPath : String) (tools out : List Tool)
    (h : compileVerb convert op verb fullPath tools = Run.value out) :
    ∀ t ∈ out, t ∈ tools ∨ ∃ o, op = some o ∧ convert o verb fullPath = Run.value (some t) := by
  intro t ht
  cases op with
  | none =>
    cases h
    exact Or.inl ht
  | some o =>
    simp only [compileVerb] at h
    cases hc : convert o verb fullPath with
    | panic e => simp [hc] at h
    | error e => simp [hc] at h
    | value r =>
      cases r with
      | none =>
        simp only [hc] at h
        cases h
        exact Or.inl ht
      | some tool =>
        simp only [hc] at h
        cases h
        rcases List.mem_append.1 ht with h1 | h1
        · exact Or.inl h1
        · simp only [List.mem_singleton] at h1
          subst h1
          exact Or.inr ⟨o, rfl, hc⟩

theorem compileVerb_returns {Op : Type} (convert : Op → String → String → Run (Option Tool))
    (hconv : ∀ o v p, ∃ r, convert o v p = Run.value r)
    (op : Option Op) (verb fullPath : String) (tools : List Tool) :
    ∃ out, compileVerb convert op verb fullPath tools = Run.value out := by
  cases op with
  | none => exact ⟨tools, rfl⟩
  | some o =>
    obtain ⟨r, hr⟩ := hconv o verb fullPath
    cases r with
    | none => exact ⟨tools, by simp [compileVerb, hr]⟩
    | some tool => exact ⟨tools ++ [tool], by simp [compileVerb, hr]⟩

theorem compileVerbs_value {Op : Type} (convert : Op → String → String → Run (Option Tool))
    (get post put delete patch : Option Op) (fullPath : String) (tools out : List Tool)
    (h : compileVerbs convert get post put delete patch fullPath tools = Run.value out) :
    ∀ t ∈ out, t ∈ tools ∨ ∃ verb o, (verb, o) ∈ declaredOperations get post put delete patch
      ∧ convert o verb fullPath = Run.value (some t) := by
  unfold compileVerbs at h
  obtain ⟨t4, h4, h5⟩ := Run.andThen_value _ _ _ h
  obtain ⟨t3, h3, h4⟩ := Run.andThen_value _ _ _ h4
  obtain ⟨t2, h2, h3⟩ := Run.andThen_value _ _ _ h3
  obtain ⟨t1, h1, h2⟩ := Run.andThen_value _ _ _ h2
  intro t ht
  have e5 := compileVerb_value convert patch "PATCH" fullPath t4 out h5 t ht
  rcases e5 with e5 | ⟨o, ho, hc⟩
  · have e4 := compileVerb_value convert delete "DELETE" fullPath t3 t4 h4 t e5
    rcases e4 with e4 | ⟨o, ho, hc⟩
    · have e3 := compileVerb_value convert put "PUT" fullPath t2 t3 h3 t e4
      rcases e3 with e3 | ⟨o, ho, hc⟩
      · have e2 := compileVerb_value convert post "POST" fullPath t1 t2 h2 t e3
        rcases e2 with e2 | ⟨o, ho, hc⟩
        · have e1 := compileVerb_value convert get "GET" fullPath tools t1 h1 t e2
          rcases e1 with e1 | ⟨o, ho, hc⟩
          · exact Or.inl e1
          · exact Or.inr ⟨"GET", o, by simp [declaredOperations, ho], hc⟩
        · exact Or.inr ⟨"POST", o, by simp [declaredOperations, ho], hc⟩
      · exact Or.inr ⟨"PUT", o, by simp [declaredOperations, ho], hc⟩
    · exact Or.inr ⟨"DELETE", o, by simp [declaredOperations, ho], hc⟩
  · exact Or.inr ⟨"PATCH", o, by simp [declaredOperations, ho], hc⟩

theorem compileVerbs_returns {Op : Type} (convert : Op → String → String → Run (Option Tool))
    (hconv : ∀ o v p, ∃ r, convert o v p = Run.value r)
    (get post put delete patch : Option Op) (fullPath : String) (tools : List Tool) :
    ∃ out, compileVerbs convert get post put delete patch fullPath tools = Run.value out := by
  unfold compileVerbs
  obtain ⟨t1, h1⟩ := compileVerb_returns convert hconv get "GET" fullPath tools
  obtain ⟨t2, h2⟩ := compileVerb_returns convert hconv post "POST" fullPath t1
  obtain ⟨t3, h3⟩ := compileVerb_returns convert hconv put "PUT" fullPath t2
  obtain ⟨t4, h4⟩ := compileVerb_returns convert hconv delete "DELETE" fullPath t3
  obtain ⟨t5, h5⟩ := compileVerb_returns convert hconv patch "PATCH" fullPath t4
  exact ⟨t5, by simp [Run.andThen, h1, h2, h3, h4, h5]⟩

namespace Swagger

theorem convertSchema_mk (type : List String) (format description : String)
    (items : Option (Option Schema)) (properties : List (String × Schema))
    (required : List String) (minimum maximum : Option Nat) (minLength maxLength : Option Int)
    (pattern : String) (enum : List Any) :
    convertSchema (Schema.mk type format description items properties required minimum
        maximum minLength maxLength pattern enum)
      = OpenAPI.setIf (decide (enum.length > 0))
          (OpenAPI.setIf (decide (pattern ≠ ""))
            (OpenAPI.setSome
              (OpenAPI.setSome
                (OpenAPI.setSome
                  (OpenAPI.setSome
                    (OpenAPI.setIf (decide (required.length > 0))
                      (match properties with
                        | [] =>
                          OpenAPI.setIf (decide (description ≠ ""))
                            (OpenAPI.setIf (decide (format ≠ ""))
                              (if type.contains "array" then
                                OpenAPI.setSome (GoMap.set [] "type" (Any.str "array")) "items"
                                  (convertItems items)
                              else
                                match type with
                                | t :: _ => GoMap.set [] "type" (Any.str t)
                                | [] => [])
                              "format" (Any.str format))
                            "description" (Any.str description)
                        | p :: ps =>
                          GoMap.set
                            (OpenAPI.setIf (decide (description ≠ ""))
                              (OpenAPI.setIf (decide (format ≠ ""))
                                (if type.contains "array" then
                                  OpenAPI.setSome (GoMap.set [] "type" (Any.str "array")) "items"
                                    (convertItems items)
                                else
                                  match type with
                                  | t :: _ => GoMap.set [] "type" (Any.str t)
                                  | [] => [])
                                "format" (Any.str format))
                              "description" (Any.str description))
                            "properties" (Any.map (convertProperties (p :: ps) [])))
                      "required" (Any.strs required))
                    "minimum" (minimum.map Any.float))
                  "maximum" (maximum.map Any.float))
                "minLength" (minLength.map Any.int))
              "maxLength" (maxLength.map Any.int))
            "pattern" (Any.str pattern))
          "enum" (Any.list enum) := by
  cases properties <;> rfl

theorem convertSchema_no_const (s : Schema) : (convertSchema s).get "const" = none := by
  cases s with
  | mk type format description items properties required minimum maximum minLength maxLength
      pattern enum =>
    rw [convertSchema_mk]
    simp only [get_setIf_ne _ _ _ "const" _ (by decide : ("enum" : String) ≠ "const"),
      get_setIf_ne _ _ _ "const" _ (by decide : ("pattern" : String) ≠ "const"),
      get_setSome_ne _ _ "const" _ (by decide : ("maxLength" : String) ≠ "const"),
      get_setSome_ne _ _ "const" _ (by decide : ("minLength" : String) ≠ "const"),
      get_setSome_ne _ _ "const" _ (by decide : ("maximum" : String) ≠ "const"),
      get_setSome_ne _ _ "const" _ (by decide : ("minimum" : String) ≠ "const"),
      get_setIf_ne _ _ _ "const" _ (by decide : ("required" : String) ≠ "const")]
    have hbase : (OpenAPI.setIf (decide (description ≠ ""))
        (OpenAPI.setIf (decide (format ≠ ""))
          (if type.contains "array" then
            OpenAPI.setSome (GoMap.set [] "type" (Any.str "array")) "items" (convertItems items)
          else
            match type with
            | t :: _ => GoMap.set [] "type" (Any.str t)
            | [] => [])
          "format" (Any.str format))
        "description" (Any.str description)).get "const" = none := by
      rw [get_setIf_ne _ _ _ "const" _ (by decide : ("description" : String) ≠ "const"),
        get_setIf_ne _ _ _ "const" _ (by decide : ("format" : String) ≠ "const")]
      split
      · rw [get_setSome_ne _ _ "const" _ (by decide), GoMap.get_set_ne _ _ _ _ (by decide)]
        rfl
      · cases type with
        | nil => rfl
        | cons t ts =>
          simp only
          rw [GoMap.get_set_ne _ _ _ _ (by decide)]
          rfl
    cases properties with
    | nil => exact hbase
    | cons p ps =>
      simp only
      rw [GoMap.get_set_ne _ _ _ _ (by decide)]
      exact hbase

theorem convertSchemaToMap_no_const (s : Option Schema) :
    (convertSchemaToMap s).get "const" = none := by
  cases s with
  | none => rfl
  | some s => exact convertSchema_no_const s

theorem baseURL_eq_spec (doc : Doc) : baseURL doc = specBaseURL doc := by
  unfold baseURL specBaseURL
  by_cases h : doc.host = ""
  · simp [h]
  · cases hs : doc.schemes <;> simp [h]

theorem get_description_no_const (s : Option Schema) (d : String) :
    GoMap.get (if d ≠ "" then (convertSchemaToMap s).set "description" (Any.str d)
      else convertSchemaToMap s) "const" = none := by
  split
  · rw [GoMap.get_set_ne _ _ _ _ (by decide)]
    exact convertSchemaToMap_no_const s
  · exact convertSchemaToMap_no_const s

theorem addParameter_endpoint (path : String) (st : GoMap Any × List String)
    (param : Parameter) (h : EndpointKept path st.1) :
    EndpointKept path (addParameter st param).1
    ∧ (param.name ≠ "endpoint" → (addParameter st param).1.get "endpoint" = st.1.get "endpoint") := by
  unfold addParameter
  by_cases hn : param.name = ""
  · rw [if_pos hn]
    exact ⟨h, fun _ => rfl⟩
  · rw [if_neg hn]
    have hset : EndpointKept path (st.1.set param.name
        (Any.map (if param.description ≠ "" then
          (convertSchemaToMap param.schema).set "description" (Any.str param.description)
          else convertSchemaToMap param.schema))) := by
      by_cases he : param.name = "endpoint"
      · right
        refine ⟨_, ?_, get_description_no_const param.schema param.description⟩
        rw [he, GoMap.get_set_self]
      · unfold EndpointKept
        rw [GoMap.get_set_ne _ _ _ _ he]
        exact h
    by_cases hb : param.in_ = "body" ∧ param.schema.isSome = true
    · rw [if_pos hb]
      constructor
      · unfold EndpointKept
        rw [GoMap.get_set_ne _ _ _ _ (by decide)]
        exact hset
      · intro he
        rw [GoMap.get_set_ne _ _ _ _ (by decide), GoMap.get_set_ne _ _ _ _ he]
    · rw [if_neg hb]
      exact ⟨hset, fun he => GoMap.get_set_ne _ _ _ _ he⟩

theorem foldl_addParameter_endpoint (path : String) (params : List Parameter)
    (st : GoMap Any × List String) (h : EndpointKept path st.1) :
    EndpointKept path (params.foldl addParameter st).1
    ∧ ((∀ q ∈ params, q.name ≠ "endpoint") →
        (params.foldl addParameter st).1.get "endpoint" = st.1.get "endpoint") := by
  induction params generalizing st with
  | nil => exact ⟨h, fun _ => rfl⟩
  | cons q rest ih =>
    have h1 := addParameter_endpoint path st q h
    have h2 := ih (addParameter st q) h1.1
    refine ⟨h2.1, fun hq => ?_⟩
    rw [List.foldl_cons, h2.2 (fun x hx => hq x (List.mem_cons_of_mem _ hx)),
      h1.2 (hq q (List.mem_cons_self _ _))]

theorem constOf_of_endpointKept (path : String) (props : GoMap Any)
    (h : EndpointKept path props) :
    ∀ c, constOf props "endpoint" = some c → c = Any.str path := by
  intro c hc
  rcases h with h | ⟨m, h, hm⟩
  · simp [constOf, h, constProperty, GoMap.get] at hc
    exact hc.symm
  · simp [constOf, h, hm] at hc

/-- The endpoint constant of a descriptor compiled by `convertOperationToMCPTool` for
`path`: if the handler finds one it is `path`, and it finds one when no declared
parameter is named endpoint. -/
theorem convertOperationToMCPTool_endpoint (op : Operation) (method path : String)
    (tool : Tool) (h : convertOperationToMCPTool op method path = Run.value (some tool)) :
    (∀ c, constOf tool.inputSchema.properties "endpoint" = some c → c = Any.str path)
    ∧ ((∀ q ∈ op.parameters, q.name ≠ "endpoint") →
        constOf tool.inputSchema.properties "endpoint" = some (Any.str path)) := by
  unfold convertOperationToMCPTool at h
  split at h
  · cases h
  · cases h
    have h0 : EndpointKept path
        ((GoMap.set (GoMap.set [] "endpoint" (constProperty path)) "method"
          (constProperty method), ([] : List String))).1 := Or.inl rfl
    have hf := foldl_addParameter_endpoint path op.parameters _ h0
    refine ⟨constOf_of_endpointKept path _ hf.1, fun hq => ?_⟩
    simp only
    unfold constOf
    rw [hf.2 hq]
    rfl

theorem convertOperationToMCPTool_returns (op : Operation) (method path : String) :
    ∃ r, convertOperationToMCPTool op method path = Run.value r := by
  unfold convertOperationToMCPTool
  split <;> exact ⟨_, rfl⟩

theorem convertPaths_value (base : String) (paths : List (String × PathItem))
    (tools out : List Tool) (h : convertPaths base paths tools = Run.value out) :
    ∀ t ∈ out, t ∈ tools ∨ ∃ path item verb op, (path, item) ∈ paths
      ∧ (verb, op) ∈ item.operations
      ∧ convertOperationToMCPTool op verb (base ++ path) = Run.value (some t) := by
  induction paths generalizing tools with
  | nil =>
    cases h
    exact fun t ht => Or.inl ht
  | cons p rest ih =>
    obtain ⟨path, item⟩ := p
    simp only [convertPaths] at h
    obtain ⟨mid, h1, h2⟩ := Run.andThen_value _ _ _ h
    intro t ht
    rcases ih mid h2 t ht with e | ⟨path1, item1, verb, op, hin, hop, hc⟩
    · rcases compileVerbs_value _ _ _ _ _ _ _ _ _ h1 t e with e1 | ⟨verb, op, hop, hc⟩
      · exact Or.inl e1
      · exact Or.inr ⟨path, item, verb, op, List.mem_cons_self _ _, hop, hc⟩
    · exact Or.inr ⟨path1, item1, verb, op, List.mem_cons_of_mem _ hin, hop, hc⟩

theorem convertPaths_returns (base : String) (paths : List (String × PathItem))
    (tools : List Tool) : ∃ out, convertPaths base paths tools = Run.value out := by
  induction paths generalizing tools with
  | nil => exact ⟨tools, rfl⟩
  | cons p rest ih =>
    obtain ⟨path, item⟩ := p
    obtain ⟨mid, h1⟩ := compileVerbs_returns convertOperationToMCPTool
      convertOperationToMCPTool_returns item.get item.post item.put item.delete item.patch
      (base ++ path) tools
    obtain ⟨out, h2⟩ := ih mid
    exact ⟨out, by simp [convertPaths, h1, Run.andThen, h2]⟩

end Swagger

/-- The function `ConvertSwaggerToMCPTools` returns a list on every document, and each
descriptor in it was compiled, for some declared path `p` and one of its operations,
with the full path `base ++ p`, where `base` is the base URL as the specification
words it; the endpoint constant the handler reads from the descriptor, if any, is that
full path, and there is one whenever the operation declares no parameter named
endpoint. -/
theorem ConvertSwaggerToMCPTools_full_path (doc : Swagger.Doc) :
    ∃ tools, Swagger.ConvertSwaggerToMCPTools doc = Run.value tools
      ∧ ∀ tool ∈ tools, ∃ path item verb op, (path, item) ∈ doc.paths
        ∧ (verb, op) ∈ item.operations
        ∧ Swagger.convertOperationToMCPTool op verb (Swagger.specBaseURL doc ++ path)
            = Run.value (some tool)
        ∧ (∀ c, constOf tool.inputSchema.properties "endpoint" = some c →
            c = Any.str (Swagger.specBaseURL doc ++ path))
        ∧ ((∀ q ∈ op.parameters, q.name ≠ "endpoint") →
            constOf tool.inputSchema.properties "endpoint"
              = some (Any.str (Swagger.specBaseURL doc ++ path))) := by
  obtain ⟨tools, h⟩ := Swagger.convertPaths_returns (Swagger.baseURL doc) doc.paths []
  refine ⟨tools, h, fun tool ht => ?_⟩
  rcases Swagger.convertPaths_value _ _ _ _ h tool ht with e | ⟨path, item, verb, op, hin, hop, hc⟩
  · cases e
  · rw [Swagger.baseURL_eq_spec] at hc
    exact ⟨path, item, verb, op, hin, hop, hc,
      Swagger.convertOperationToMCPTool_endpoint op verb _ tool hc⟩

/-- C9, the code at the failing input: the document has host api.test, base path /v1,
no scheme, and one GET operation on /pets that declares a parameter named endpoint.
The base URL is https://api.test/v1, so the claim gives the descriptor the endpoint
constant https://api.test/v1/pets; the descriptor `ConvertSwaggerToMCPTools` returns
has under endpoint the property of the parameter, an object schema without const, and
the handler finds no endpoint constant in it.  The same document without the parameter
compiles to a descriptor with that constant. -/
theorem C9_declared_endpoint_parameter_drops_full_path :
    Swagger.specBaseURL Sample.shadowedDoc ++ "/pets" = "https://api.test/v1/pets"
    ∧ Swagger.ConvertSwaggerToMCPTools Sample.shadowedDoc = Run.value [Sample.shadowedTool]
    ∧ GoMap.get Sample.shadowedTool.inputSchema.properties "endpoint"
        = some (Any.map [("type", Any.str "object")])
    ∧ constOf Sample.shadowedTool.inputSchema.properties "endpoint" = none
    ∧ (∃ tool, Swagger.ConvertSwaggerToMCPTools Sample.petsDoc = Run.value [tool]
        ∧ GoMap.get tool.inputSchema.properties "endpoint"
            = some (constProperty "https://api.test/v1/pets")) :=
  ⟨by decide, rfl, rfl, rfl, _, rfl, rfl⟩

/-! ## C20: the version router -/

theorem strHasPrefix_two_three (v : String) (h : strHasPrefix v "2." = true) :
    strHasPrefix v "3." = false := by
  unfold strHasPrefix at h ⊢
  cases hv : v.data with
  | nil => rfl
  | cons c rest =>
    rw [hv] at h
    have h2 : ("2." : String).data = ['2', '.'] := rfl
    have h3 : ("3." : String).data = ['3', '.'] := rfl
    rw [h2] at h
    rw [h3]
    simp only [startsWith, Bool.and_eq_true, beq_iff_eq] at h
    simp only [startsWith, h.1]
    rfl

theorem Run.andThen_ne_error {α β : Type} (r : Run α) (f : α → Run β)
    (hr : ∀ e, r ≠ Run.error e) (hf : ∀ a e, f a ≠ Run.error e) :
    ∀ e, r.andThen f ≠ Run.error e := by
  intro e
  cases r with
  | value a => exact hf a e
  | error e1 => exact absurd rfl (hr e1)
  | panic m =>
    intro h
    cases h

theorem compileVerb_ne_error {Op : Type} (convert : Op → String → String → Run (Option Tool))
    (hconv : ∀ o v p e, convert o v p ≠ Run.error e)
    (op : Option Op) (verb fullPath : String) (tools : List Tool) :
    ∀ e, compileVerb convert op verb fullPath tools ≠ Run.error e := by
  intro e h
  cases op with
  | none => cases h
  | some o =>
    simp only [compileVerb] at h
    cases hc : convert o verb fullPath with
    | panic m => simp [hc] at h
    | error e1 => exact hconv o verb fullPath e1 hc
    | value r =>
      cases r with
      | none => simp [hc] at h
      | some t => simp [hc] at h

theorem compileVerbs_ne_error {Op : Type} (convert : Op → String → String → Run (Option Tool))
    (hconv : ∀ o v p e, convert o v p ≠ Run.error e)
    (get post put delete patch : Option Op) (fullPath : String) (tools : List Tool) :
    ∀ e, compileVerbs convert get post put delete patch fullPath tools ≠ Run.error e := by
  unfold compileVerbs
  apply Run.andThen_ne_error _ _ _ (fun a => compileVerb_ne_error convert hconv _ _ _ a)
  apply Run.andThen_ne_error _ _ _ (fun a => compileVerb_ne_error convert hconv _ _ _ a)
  apply Run.andThen_ne_error _ _ _ (fun a => compileVerb_ne_error convert hconv _ _ _ a)
  apply Run.andThen_ne_error _ _ _ (fun a => compileVerb_ne_error convert hconv _ _ _ a)
  exact compileVerb_ne_error convert hconv _ _ _ tools

namespace OpenAPI

theorem addParameters_ne_error (params : List (Option Parameter))
    (st : GoMap Any × List String) : ∀ e, addParameters params st ≠ Run.error e := by
  induction params generalizing st with
  | nil =>
    intro e h
    cases h
  | cons p rest ih =>
    intro e h
    simp only [addParameters] at h
    cases hp : addParameter st p with
    | value st1 =>
      simp only [hp] at h
      exact ih st1 e h
    | panic m => simp [hp] at h
    | error e1 =>
      cases p with
      | none => cases hp
      | some q =>
        simp only [addParameter] at hp
        cases hq : q.schema with
        | none => simp [hq] at hp
        | some ref => simp [hq] at hp

theorem addRequestBody_ne_error (st : GoMap Any × List String)
    (rb : Option (Option RequestBody)) : ∀ e, addRequestBody st rb ≠ Run.error e := by
  intro e h
  unfold addRequestBody at h
  split at h
  · split at h
    · split at h <;> cases h
    · cases h
  · cases h

theorem ConvertOperationToMCPTool_ne_error (op : Operation) (method path e : String) :
    ConvertOperationToMCPTool op method path ≠ Run.error e := by
  intro h
  unfold ConvertOperationToMCPTool at h
  by_cases hid : op.operationID = ""
  · simp [hid] at h
  · simp only [hid, if_false] at h
    cases hp : addParameters op.parameters
        (GoMap.set (GoMap.set [] "endpoint" (constProperty path)) "method"
          (constProperty method), []) with
    | error e1 => exact addParameters_ne_error _ _ e1 hp
    | panic m => simp [hp] at h
    | value st =>
      simp only [hp] at h
      cases hb : addRequestBody st op.requestBody with
      | error e1 => exact addRequestBody_ne_error _ _ e1 hb
      | panic m => simp [hb] at h
      | value out => simp [hb] at h

theorem convertPaths_ne_error (base : String) (paths : List (String × Option PathItem))
    (tools : List Tool) : ∀ e, convertPaths base paths tools ≠ Run.error e := by
  induction paths generalizing tools with
  | nil =>
    intro e h
    cases h
  | cons p rest ih =>
    obtain ⟨path, item⟩ := p
    cases item with
    | none =>
      intro e h
      simp only [convertPaths] at h
      exact ih tools e h
    | some item =>
      simp only [convertPaths]
      exact Run.andThen_ne_error _ _
        (compileVerbs_ne_error _ ConvertOperationToMCPTool_ne_error _ _ _ _ _ _ _)
        (fun a => ih a)

theorem ConvertOpenAPIToMCPTools_ne_error (spec : T) (e : String) :
    ConvertOpenAPIToMCPTools spec ≠ Run.error e := by
  unfold ConvertOpenAPIToMCPTools
  cases spec.servers with
  | nil =>
    intro h
    cases h
  | cons base rest => exact convertPaths_ne_error base spec.paths [] e

end OpenAPI

/-- C20: for a detected version `v`, `ParseSpecRouter` returns what the Swagger
pipeline returns (its loader, then its compiler) when `v` starts with `2.`, what the
OpenAPI pipeline returns when `v` starts with `3.`, and for every other `v` the error
"unsupported specification version: v", hence no descriptor; and a pipeline is used
in no other case: when `v` does not start with `2.` the return does not depend on
the Swagger loader, when `v` does not start with `3.` it does not depend on the
OpenAPI loader. -/
theorem C20_version_dispatch (env : SpecFiles) (specPath v : String)
    (h : DetectSpecVersion env specPath = Except.ok v) :
    (strHasPrefix v "2." = true →
      (∀ err, env.LoadSwaggerSpec specPath = Except.error err →
        ParseSpecRouter env specPath = Run.error "unable to load swagger spec")
      ∧ (∀ doc, env.LoadSwaggerSpec specPath = Except.ok doc →
        ParseSpecRouter env specPath = Swagger.ConvertSwaggerToMCPTools doc))
    ∧ (strHasPrefix v "3." = true →
      (∀ err, env.LoadOpenApiSpec specPath = Except.error err →
        ParseSpecRouter env specPath = Run.error ("error loading OpenAPI spec: " ++ err))
      ∧ (∀ doc, env.LoadOpenApiSpec specPath = Except.ok doc →
        ParseSpecRouter env specPath = OpenAPI.ConvertOpenAPIToMCPTools doc))
    ∧ (strHasPrefix v "2." = false → strHasPrefix v "3." = false →
        ParseSpecRouter env specPath = Run.error ("unsupported specification version: " ++ v))
    ∧ (strHasPrefix v "2." = false → ∀ load,
        ParseSpecRouter { env with LoadSwaggerSpec := load } specPath
          = ParseSpecRouter env specPath)
    ∧ (strHasPrefix v "3." = false → ∀ load,
        ParseSpecRouter { env with LoadOpenApiSpec := load } specPath
          = ParseSpecRouter env specPath) := by
  have hd1 : ∀ load, DetectSpecVersion { env with LoadSwaggerSpec := load } specPath
      = Except.ok v := fun load => h
  have hd2 : ∀ load, DetectSpecVersion { env with LoadOpenApiSpec := load } specPath
      = Except.ok v := fun load => h
  refine ⟨?_, ?_, ?_, ?_, ?_⟩
  · intro h2
    constructor
    · intro err hl
      simp [ParseSpecRouter, h, h2, hl]
    · intro doc hl
      obtain ⟨tools, ht⟩ := Swagger.convertPaths_returns (Swagger.baseURL doc) doc.paths []
      have hv : Swagger.ConvertSwaggerToMCPTools doc = Run.value tools := ht
      simp [ParseSpecRouter, h, h2, hl, hv]
  · intro h3
    have h2 : strHasPrefix v "2." = false := by
      cases h2 : strHasPrefix v "2." with
      | false => rfl
      | true =>
        rw [strHasPrefix_two_three v h2] at h3
        cases h3
    constructor
    · intro err hl
      simp [ParseSpecRouter, h, h2, h3, hl]
    · intro doc hl
      cases hc : OpenAPI.ConvertOpenAPIToMCPTools doc with
      | value tools => simp [ParseSpecRouter, h, h2, h3, hl, hc]
      | panic m => simp [ParseSpecRouter, h, h2, h3, hl, hc]
      | error e => exact absurd hc (OpenAPI.ConvertOpenAPIToMCPTools_ne_error doc e)
  · intro h2 h3
    simp [ParseSpecRouter, h, h2, h3]
  · intro h2 load
    unfold ParseSpecRouter
    rw [hd1 load, h]
    simp [h2]
  · intro h3 load
    unfold ParseSpecRouter
    rw [hd2 load, h]
    by_cases h2 : strHasPrefix v "2." = true
    · simp [h2]
    · simp [h2, h3]

/-- C20 at concrete inputs: the version 2.0 gives the list the Swagger compiler builds
from the loaded document, the version 3.0.1 the error of the OpenAPI loader, and the
version 1.2 is refused. -/
theorem C20_version_dispatch_witness :
    ParseSpecRouter (Sample.files true "2.0") "api.json"
      = Swagger.ConvertSwaggerToMCPTools Sample.petsDoc
    ∧ (∃ tool, ParseSpecRouter (Sample.files true "2.0") "api.json" = Run.value [tool]
        ∧ tool.name = "listPets"
        ∧ constOf tool.inputSchema.properties "endpoint"
            = some (Any.str "https://api.test/v1/pets"))
    ∧ ParseSpecRouter (Sample.files false "3.0.1") "api.json"
      = Run.error "error loading OpenAPI spec: not an OpenAPI document"
    ∧ ParseSpecRouter (Sample.files true "1.2") "api.json"
      = Run.error "unsupported specification version: 1.2" :=
  ⟨((C20_version_dispatch (Sample.files true "2.0") "api.json" "2.0" rfl).1 (by decide)).2
      Sample.petsDoc rfl,
    ⟨_, rfl, rfl, rfl⟩,
    ((C20_version_dispatch (Sample.files false "3.0.1") "api.json" "3.0.1" rfl).2.1
      (by decide)).1 "not an OpenAPI document" rfl,
    (C20_version_dispatch (Sample.files true "1.2") "api.json" "1.2" rfl).2.2.1
      (by decide) (by decide)⟩

/-! ## C12: the Swagger translator keeps kind and constraints -/

theorem GoMap.get_set {α : Type} (m : GoMap α) (k k1 : String) (v : α) :
    (m.set k v).get k1 = if k = k1 then some v else m.get k1 := by
  by_cases h : k = k1
  · subst h
    simp [GoMap.get_set_self]
  · simp [h, GoMap.get_set_ne _ _ _ _ h]

theorem get_setIf (cond : Bool) (m : GoMap Any) (k k1 : String) (v : Any) :
    (OpenAPI.setIf cond m k v).get k1
      = if cond = true ∧ k = k1 then some v else m.get k1 := by
  unfold OpenAPI.setIf
  cases cond <;> simp [GoMap.get_set]

theorem get_setSome (m : GoMap Any) (k k1 : String) (v : Option Any) :
    (OpenAPI.setSome m k v).get k1
      = if k = k1 then (match v with | some a => some a | none => m.get k1) else m.get k1 := by
  unfold OpenAPI.setSome
  cases v <;> simp [GoMap.get_set]

namespace Swagger

theorem convertProperties_cons (p : String × Schema) (rest : List (String × Schema))
    (props : GoMap Any) :
    convertProperties (p :: rest) props
      = convertProperties rest (props.set p.1 (Any.map (convertSchema p.2))) := by
  obtain ⟨n, q⟩ := p
  rfl

theorem convertProperties_get_absent (ps : List (String × Schema)) (props : GoMap Any)
    (name : String) (h : name ∉ ps.map Prod.fst) :
    (convertProperties ps props).get name = props.get name := by
  induction ps generalizing props with
  | nil => rfl
  | cons p rest ih =>
    simp only [List.map_cons, List.mem_cons, not_or] at h
    rw [convertProperties_cons, ih _ h.2, GoMap.get_set_ne _ _ _ _ (fun e => h.1 e.symm)]

theorem convertProperties_get (ps : List (String × Schema)) (props : GoMap Any)
    (hnd : (ps.map Prod.fst).Nodup) (name : String) (prop : Schema)
    (h : (name, prop) ∈ ps) :
    (convertProperties ps props).get name = some (Any.map (convertSchema prop)) := by
  induction ps generalizing props with
  | nil => cases h
  | cons p rest ih =>
    simp only [List.map_cons, List.nodup_cons] at hnd
    rw [convertProperties_cons]
    rcases List.mem_cons.1 h with e | e
    · subst e
      rw [convertProperties_get_absent _ _ _ hnd.1, GoMap.get_set_self]
    · exact ih _ hnd.2 e

end Swagger

/-- C12: the node `convertSchemaToMap` builds for a Swagger schema carries the declared
kind and every declared constraint with its own value: type (array for an array
schema, which also gets its item schema translated by the same function, else the
first declared type), format, description, pattern, enum, minimum, maximum,
minLength, maxLength and the required list; and under properties every declared
name maps to the translation of its own schema.  As this holds for every schema, it
holds for the sub-schemas at every nesting level. -/
theorem C12_swagger_constraints_retained (type : List String) (format description : String)
    (items : Option (Option Swagger.Schema)) (properties : List (String × Swagger.Schema))
    (required : List String) (minimum maximum : Option Nat) (minLength maxLength : Option Int)
    (pattern : String) (enum : List Any) :
    (Swagger.convertSchemaToMap (some (Swagger.Schema.mk type format description items
        properties required minimum maximum minLength maxLength pattern enum))).get "type"
      = (if type.contains "array" then some (Any.str "array") else type.head?.map Any.str)
    ∧ (∀ it, type.contains "array" = true → items = some (some it) →
        (Swagger.convertSchemaToMap (some (Swagger.Schema.mk type format description items
          properties required minimum maximum minLength maxLength pattern enum))).get "items"
        = some (Any.map (Swagger.convertSchemaToMap (some it))))
    ∧ (Swagger.convertSchemaToMap (some (Swagger.Schema.mk type format description items
        properties required minimum maximum minLength maxLength pattern enum))).get "format"
      = (if format = "" then none else some (Any.str format))
    ∧ (Swagger.convertSchemaToMap (some (Swagger.Schema.mk type format description items
        properties required minimum maximum minLength maxLength pattern enum))).get "description"
      = (if description = "" then none else some (Any.str description))
    ∧ (Swagger.convertSchemaToMap (some (Swagger.Schema.mk type format description items
        properties required minimum maximum minLength maxLength pattern enum))).get "pattern"
      = (if pattern = "" then none else some (Any.str pattern))
    ∧ (Swagger.convertSchemaToMap (some (Swagger.Schema.mk type format description items
        properties required minimum maximum minLength maxLength pattern enum))).get "enum"
      = (if enum.isEmpty then none else some (Any.list enum))
    ∧ (Swagger.convertSchemaToMap (some (Swagger.Schema.mk type format description items
        properties required minimum maximum minLength maxLength pattern enum))).get "minimum"
      = minimum.map Any.float
    ∧ (Swagger.convertSchemaToMap (some (Swagger.Schema.mk type format description items
        properties required minimum maximum minLength maxLength pattern enum))).get "maximum"
      = maximum.map Any.float
    ∧ (Swagger.convertSchemaToMap (some (Swagger.Schema.mk type format description items
        properties required minimum maximum minLength maxLength pattern enum))).get "minLength"
      = minLength.map Any.int
    ∧ (Swagger.convertSchemaToMap (some (Swagger.Schema.mk type format description items
        properties required minimum maximum minLength maxLength pattern enum))).get "maxLength"
      = maxLength.map Any.int
    ∧ (Swagger.convertSchemaToMap (some (Swagger.Schema.mk type format description items
        properties required minimum maximum minLength maxLength pattern enum))).get "required"
      = (if required.isEmpty then none else some (Any.strs required))
    ∧ (Swagger.convertSchemaToMap (some (Swagger.Schema.mk type format description items
        properties required minimum maximum minLength maxLength pattern enum))).get "properties"
      = (if properties.isEmpty then none
          else some (Any.map (Swagger.convertProperties properties [])))
    ∧ ((properties.map Prod.fst).Nodup → ∀ name prop, (name, prop) ∈ properties →
        (Swagger.convertProperties properties []).get name
          = some (Any.map (Swagger.convertSchemaToMap (some prop)))) := by
  have hcore : ∀ k : String, k ≠ "type" → k ≠ "items" →
      GoMap.get (if "array" ∈ type then
          OpenAPI.setSome (GoMap.set [] "type" (Any.str "array")) "items"
            (Swagger.convertItems items)
        else
          match type with
          | t :: _ => GoMap.set [] "type" (Any.str t)
          | [] => []) k = none := by
    intro k h1 h2
    split
    · rw [get_setSome, if_neg (Ne.symm h2), GoMap.get_set, if_neg (Ne.symm h1)]
      rfl
    · cases type with
      | nil => rfl
      | cons t ts =>
        simp only
        rw [GoMap.get_set, if_neg (Ne.symm h1)]
        rfl
  simp only [Swagger.convertSchemaToMap, Swagger.convertSchema_mk]
  refine ⟨?_, ?_, ?_, ?_, ?_, ?_, ?_, ?_, ?_, ?_, ?_, ?_, ?_⟩
  · cases properties <;> simp [get_setIf, get_setSome, GoMap.get_set] <;>
      split <;> (try cases type) <;> simp [get_setSome, GoMap.get_set, GoMap.get]
  · intro it ht hi
    subst hi
    have ht1 : "array" ∈ type := by simpa using ht
    cases properties <;>
      simp [get_setIf, get_setSome, GoMap.get_set, ht1, Swagger.convertItems]
  · cases properties <;>
      simp [get_setIf, get_setSome, GoMap.get_set, hcore]
  · cases properties <;>
      simp [get_setIf, get_setSome, GoMap.get_set, hcore]
  · cases properties <;>
      simp [get_setIf, get_setSome, GoMap.get_set, hcore]
  · cases properties <;> cases enum <;>
      simp [get_setIf, get_setSome, GoMap.get_set, hcore]
  · cases properties <;> cases minimum <;>
      simp [get_setIf, get_setSome, GoMap.get_set, hcore]
  · cases properties <;> cases maximum <;>
      simp [get_setIf, get_setSome, GoMap.get_set, hcore]
  · cases properties <;> cases minLength <;>
      simp [get_setIf, get_setSome, GoMap.get_set, hcore]
  · cases properties <;> cases maxLength <;>
      simp [get_setIf, get_setSome, GoMap.get_set, hcore]
  · cases properties <;> cases required <;>
      simp [get_setIf, get_setSome, GoMap.get_set, hcore]
  · cases properties <;>
      simp [get_setIf, get_setSome, GoMap.get_set, hcore]
  · intro hnd name prop hin
    exact Swagger.convertProperties_get properties [] hnd name prop hin

/-- C12 at a concrete input: the schema of a pet, an object with a required name and
a list of tags, each tag a short lower-case string. -/
theorem C12_swagger_constraints_retained_witness :
    (Swagger.convertSchemaToMap (some Sample.pet)).get "type" = some (Any.str "object")
    ∧ (Swagger.convertSchemaToMap (some Sample.pet)).get "required"
        = some (Any.strs ["name"])
    ∧ (Swagger.convertProperties [("name", Sample.swaggerTyped ["string"]),
          ("tags", Sample.tagList)] []).get "tags"
        = some (Any.map (Swagger.convertSchemaToMap (some Sample.tagList)))
    ∧ (Swagger.convertSchemaToMap (some Sample.tagList)).get "items"
        = some (Any.map (Swagger.convertSchemaToMap (some Sample.tag)))
    ∧ (Swagger.convertSchemaToMap (some Sample.tag)).get "pattern"
        = some (Any.str "^[a-z]+$")
    ∧ (Swagger.convertSchemaToMap (some Sample.tag)).get "maxLength" = some (Any.int 20) :=
  ⟨(C12_swagger_constraints_retained ["object"] "" "" none
      [("name", Sample.swaggerTyped ["string"]), ("tags", Sample.tagList)] ["name"]
      none none none none "" []).1,
    (C12_swagger_constraints_retained ["object"] "" "" none
      [("name", Sample.swaggerTyped ["string"]), ("tags", Sample.tagList)] ["name"]
      none none none none "" []).2.2.2.2.2.2.2.2.2.2.1,
    (C12_swagger_constraints_retained ["object"] "" "" none
      [("name", Sample.swaggerTyped ["string"]), ("tags", Sample.tagList)] ["name"]
      none none none none "" []).2.2.2.2.2.2.2.2.2.2.2.2 (by decide) "tags" Sample.tagList
      (by simp),
    (C12_swagger_constraints_retained ["array"] "" "tags of the pet"
      (some (some Sample.tag)) [] [] none none none none "" []).2.1 Sample.tag rfl rfl,
    (C12_swagger_constraints_retained ["string"] "" "" none [] [] none none
      (some 1) (some 20) "^[a-z]+$" []).2.2.2.2.1,
    (C12_swagger_constraints_retained ["string"] "" "" none [] [] none none
      (some 1) (some 20) "^[a-z]+$" []).2.2.2.2.2.2.2.2.2.1⟩

/-! ## C11: the OpenAPI translator and the required list -/

/-- C11, the code at the failing input: `ConvertSchemaToMap` copies the required list
only inside the test `schema.Properties != nil`, so an object schema that declares
required names and no properties loses them, while the same schema with a declared
(even empty) properties map keeps them. -/
theorem C11_required_lost_without_properties :
    OpenAPI.ConvertSchemaToMap (some Sample.requiredOnly) = [("type", Any.str "object")]
    ∧ (OpenAPI.ConvertSchemaToMap (some Sample.requiredOnly)).get "required" = none
    ∧ (OpenAPI.ConvertSchemaToMap (some Sample.requiredWithProperties)).get "required"
        = some (Any.strs ["id"]) :=
  ⟨rfl, rfl, rfl⟩

/-! ## C13: schemas without a declared type -/

/-- C13, the code at the failing input: the Swagger translator gives a non-nil schema
with an empty type list no type at all (the node is empty), while it gives the nil
schema the type object, as the OpenAPI translator does for the nil schema, for a nil
type list and for an empty type list. -/
theorem C13_swagger_typeless_has_no_type :
    Swagger.convertSchemaToMap (some (Sample.swaggerTyped [])) = []
    ∧ (Swagger.convertSchemaToMap (some (Sample.swaggerTyped []))).get "type" = none
    ∧ (Swagger.convertSchemaToMap none).get "type" = some (Any.str "object")
    ∧ (OpenAPI.ConvertSchemaToMap none).get "type" = some (Any.str "object")
    ∧ (OpenAPI.ConvertSchemaToMap (some (OpenAPI.Schema.mk none "" "" none none [] none none 0
        none "" []))).get "type" = some (Any.str "object")
    ∧ (OpenAPI.ConvertSchemaToMap (some (Sample.typed []))).get "type"
        = some (Any.str "object") :=
  ⟨rfl, rfl, rfl, rfl, rfl, rfl⟩

/-! ## C17 and C18: the Swagger body parameter -/

/-- C17, the code at the failing input: for a required body parameter named body,
`convertOperationToMCPTool` appends the name of the parameter and then the word body:
the required list holds body twice. -/
theorem C17_body_listed_twice :
    ∃ tool, Swagger.convertOperationToMCPTool (Sample.createPet "body") "POST"
        "https://api.test/v1/pets" = Run.value (some tool)
      ∧ tool.inputSchema.required = ["body", "body"]
      ∧ ¬ tool.inputSchema.required.Nodup :=
  ⟨_, rfl, rfl, by decide⟩

/-- C18, the code at the failing input: for a body parameter named payload the property
bag has the key body, mapped to the translation of the schema of the parameter, and
also the key payload: the parameter is entered under its own name as well. -/
theorem C18_body_parameter_entered_twice :
    ∃ tool, Swagger.convertOperationToMCPTool (Sample.createPet "payload") "POST"
        "https://api.test/v1/pets" = Run.value (some tool)
      ∧ tool.inputSchema.properties.keys = ["endpoint", "method", "payload", "body"]
      ∧ tool.inputSchema.properties.get "body"
          = some (Any.map (Swagger.convertSchemaToMap (some Sample.pet)))
      ∧ tool.inputSchema.properties.get "payload"
          = some (Any.map (Swagger.convertSchemaToMap (some Sample.pet)))
      ∧ tool.inputSchema.required = ["payload", "body"] :=
  ⟨_, rfl, rfl, rfl, rfl, rfl⟩

/-! ## C14 to C16 and C19: what an operation compiles to -/

namespace OpenAPI

theorem addParameters_required (params : List (Option Parameter))
    (st out : GoMap Any × List String) (h : addParameters params st = Run.value out) :
    out.2 = st.2 ++ requiredNames params := by
  induction params generalizing st with
  | nil =>
    cases h
    simp [requiredNames]
  | cons p rest ih =>
    simp only [addParameters] at h
    cases hp : addParameter st p with
    | error e => simp [hp] at h
    | panic e => simp [hp] at h
    | value st1 =>
      simp only [hp] at h
      rw [ih st1 h]
      cases p with
      | none =>
        cases hp
        simp [requiredNames]
      | some q =>
        simp only [addParameter] at hp
        cases hq : q.schema with
        | none => simp [hq] at hp
        | some ref =>
          simp only [hq] at hp
          cases hp
          by_cases hr : q.required = true
          · simp [requiredNames, hr]
          · simp [requiredNames, hr]

theorem addRequestBody_required (op : Operation) (st out : GoMap Any × List String)
    (h : addRequestBody st op.requestBody = Run.value out) :
    out.2 = st.2 ++ (if requiresBody op = true then ["body"] else []) := by
  unfold requiresBody
  unfold addRequestBody at h
  cases hb : op.requestBody with
  | none =>
    simp only [hb] at h
    cases h
    simp
  | some r =>
    cases r with
    | none =>
      simp only [hb] at h
      cases h
      simp
    | some rb =>
      simp only [hb] at h
      cases hc : contentGetJSON rb.content with
      | none =>
        simp only [hc] at h
        cases h
        simp [hc]
      | some jsonContent =>
        simp only [hc] at h
        cases hs : jsonContent.schema with
        | none => simp [hs] at h
        | some ref =>
          simp only [hs] at h
          cases h
          by_cases hr : rb.required = true <;> simp [hr, hc]

/-- What a returned descriptor is made of. -/
theorem ConvertOperationToMCPTool_value (op : Operation) (method path : String) (tool : Tool)
    (h : ConvertOperationToMCPTool op method path = Run.value (some tool)) :
    op.operationID ≠ "" ∧ ∃ st out,
      addParameters op.parameters
        (GoMap.set (GoMap.set [] "endpoint" (constProperty path)) "method"
          (constProperty method), []) = Run.value st
      ∧ addRequestBody st op.requestBody = Run.value out
      ∧ tool = { name := op.operationID
                 description := buildDescription op.summary op.description method path
                 inputSchema := { type := "object", properties := out.1, required := out.2 } } := by
  unfold ConvertOperationToMCPTool at h
  by_cases hid : op.operationID = ""
  · simp [hid] at h
  · simp only [hid, if_false] at h
    refine ⟨hid, ?_⟩
    cases hp : addParameters op.parameters
        (GoMap.set (GoMap.set [] "endpoint" (constProperty path)) "method"
          (constProperty method), []) with
    | error e => simp [hp] at h
    | panic e => simp [hp] at h
    | value st =>
      simp only [hp] at h
      cases hb : addRequestBody st op.requestBody with
      | error e => simp [hb] at h
      | panic e => simp [hb] at h
      | value out =>
        simp only [hb] at h
        refine ⟨st, out, rfl, hb, ?_⟩
        simp only [Run.value.injEq, Option.some.injEq] at h
        exact h.symm

end OpenAPI

/-- C16 (amended): the required list of a compiled OpenAPI descriptor is the names of
the parameters declared required, in declaration order, followed by body exactly
when the operation has a required JSON request body; so a name is in the list exactly
when it is one of those, and the list has no repetition provided the required
parameters bear distinct names and, when the body is required, none is named body. -/
theorem C16_openapi_required_list (op : OpenAPI.Operation) (method path : String)
    (tool : Tool)
    (h : OpenAPI.ConvertOperationToMCPTool op method path = Run.value (some tool)) :
    tool.inputSchema.required
      = OpenAPI.requiredNames op.parameters
        ++ (if OpenAPI.requiresBody op = true then ["body"] else [])
    ∧ (∀ name, name ∈ tool.inputSchema.required ↔
        (name ∈ OpenAPI.requiredNames op.parameters
          ∨ (name = "body" ∧ OpenAPI.requiresBody op = true)))
    ∧ ((OpenAPI.requiredNames op.parameters).Nodup →
        (OpenAPI.requiresBody op = true → "body" ∉ OpenAPI.requiredNames op.parameters) →
        tool.inputSchema.required.Nodup) := by
  obtain ⟨_, st, out, hp, hb, rfl⟩ := OpenAPI.ConvertOperationToMCPTool_value op method path tool h
  have hreq : out.2 = OpenAPI.requiredNames op.parameters
      ++ (if OpenAPI.requiresBody op = true then ["body"] else []) := by
    rw [OpenAPI.addRequestBody_required op st out hb, OpenAPI.addParameters_required _ _ _ hp]
    simp
  refine ⟨hreq, ?_, ?_⟩
  · intro name
    simp only [hreq, List.mem_append]
    by_cases hr : OpenAPI.requiresBody op = true <;> simp [hr]
  · intro hnd hbody
    simp only [hreq]
    by_cases hr : OpenAPI.requiresBody op = true
    · simp only [hr, if_true]
      rw [List.nodup_append]
      refine ⟨hnd, by simp, ?_⟩
      intro a ha hb1
      simp only [List.mem_singleton] at hb1
      subst hb1
      exact hbody hr ha
    · simp [hr, hnd]

/-- C16 at a concrete input: an operation with one required parameter and a required
JSON body. -/
theorem C16_openapi_required_list_witness :
    OpenAPI.ConvertOperationToMCPTool Sample.updateItem "PUT" "https://api.test/items/\x7bid\x7d"
      = Run.value (some Sample.updateItemTool)
    ∧ Sample.updateItemTool.inputSchema.required = ["id", "body"]
    ∧ Sample.updateItemTool.inputSchema.required.Nodup :=
  ⟨rfl,
    (C16_openapi_required_list Sample.updateItem "PUT" "https://api.test/items/\x7bid\x7d"
      Sample.updateItemTool rfl).1,
    (C16_openapi_required_list Sample.updateItem "PUT" "https://api.test/items/\x7bid\x7d"
      Sample.updateItemTool rfl).2.2 (by decide) (by decide)⟩

/-- C16 as stated fails: an operation with a required parameter id in the path and a
required parameter id in the query compiles to a descriptor whose required list holds
id twice. -/
theorem C16_counterexample :
    ∃ tool, OpenAPI.ConvertOperationToMCPTool Sample.getItem "GET" "https://api.test/items"
        = Run.value (some tool)
      ∧ tool.inputSchema.required = ["id", "id"]
      ∧ ¬ tool.inputSchema.required.Nodup :=
  ⟨_, rfl, rfl, by decide⟩

theorem buildDescription_eq (summary description method path : String) :
    OpenAPI.buildDescription summary description method path
      = (if summary ≠ "" then summary
          else if description ≠ "" then description
          else method ++ " " ++ path) := by
  unfold OpenAPI.buildDescription
  by_cases hs : summary = ""
  · by_cases hd : description = "" <;> simp [hs, hd]
  · simp [hs]

theorem buildDescription_ne_empty (summary description method path : String) :
    OpenAPI.buildDescription summary description method path ≠ "" := by
  rw [buildDescription_eq]
  by_cases hs : summary = ""
  · by_cases hd : description = ""
    · simp only [hs, hd, ne_eq, not_true_eq_false, if_false]
      intro h
      have hl := congrArg String.length h
      simp only [String.length_append] at hl
      have h1 : (" " : String).length = 1 := rfl
      rw [h1] at hl
      have h0 : ("" : String).length = 0 := rfl
      rw [h0] at hl
      omega
    · simp [hs, hd]
  · simp [hs]

theorem Swagger.convertOperationToMCPTool_value (op : Swagger.Operation)
    (method path : String) (tool : Tool)
    (h : Swagger.convertOperationToMCPTool op method path = Run.value (some tool)) :
    op.id ≠ "" ∧ tool.name = op.id
      ∧ tool.description = OpenAPI.buildDescription op.summary op.description method path := by
  unfold Swagger.convertOperationToMCPTool at h
  by_cases hid : op.id = ""
  · simp [hid] at h
  · simp only [hid, if_false, Run.value.injEq, Option.some.injEq] at h
    subst h
    exact ⟨hid, rfl, rfl⟩

/-- C15: for both compilers, the description of a compiled descriptor is the summary
of the operation when that is not empty, else its description when that is not
empty, else the verb, a space and the full path; it is never empty. -/
theorem C15_description_fallback :
    (∀ (op : OpenAPI.Operation) (method path : String) (tool : Tool),
      OpenAPI.ConvertOperationToMCPTool op method path = Run.value (some tool) →
      tool.description
          = (if op.summary ≠ "" then op.summary
              else if op.description ≠ "" then op.description
              else method ++ " " ++ path)
        ∧ tool.description ≠ "")
    ∧ (∀ (op : Swagger.Operation) (method path : String) (tool : Tool),
      Swagger.convertOperationToMCPTool op method path = Run.value (some tool) →
      tool.description
          = (if op.summary ≠ "" then op.summary
              else if op.description ≠ "" then op.description
              else method ++ " " ++ path)
        ∧ tool.description ≠ "") := by
  constructor
  · intro op method path tool h
    obtain ⟨_, st, out, _, _, rfl⟩ := OpenAPI.ConvertOperationToMCPTool_value op method path tool h
    exact ⟨buildDescription_eq _ _ _ _, buildDescription_ne_empty _ _ _ _⟩
  · intro op method path tool h
    obtain ⟨_, _, hd⟩ := Swagger.convertOperationToMCPTool_value op method path tool h
    rw [hd]
    exact ⟨buildDescription_eq _ _ _ _, buildDescription_ne_empty _ _ _ _⟩

/-- C15 at concrete inputs: an operation with a summary, one with a description only,
and one with neither. -/
theorem C15_description_fallback_witness :
    (Sample.updateItemTool.description = (if Sample.updateItem.summary ≠ "" then
        Sample.updateItem.summary
      else if Sample.updateItem.description ≠ "" then Sample.updateItem.description
      else "PUT" ++ " " ++ "https://api.test/items/\x7bid\x7d")
      ∧ Sample.updateItemTool.description ≠ "")
    ∧ Sample.updateItemTool.description = "Replace an item"
    ∧ (∃ tool, Swagger.convertOperationToMCPTool (Sample.createPet "body") "POST"
        "https://api.test/v1/pets" = Run.value (some tool)
      ∧ tool.description = "POST https://api.test/v1/pets")
    ∧ (∃ tool, OpenAPI.ConvertOperationToMCPTool Sample.listPets "GET"
        "https://api.test/pets" = Run.value (some tool)
      ∧ tool.description = "List all pets") :=
  ⟨C15_description_fallback.1 Sample.updateItem "PUT" "https://api.test/items/\x7bid\x7d"
      Sample.updateItemTool rfl,
    rfl, ⟨_, rfl, rfl⟩, ⟨_, rfl, rfl⟩⟩

theorem compileVerb_spec {Op : Type} (convert : Op → String → String → Run (Option Tool))
    (op : Option Op) (verb fullPath : String) (tools out : List Tool)
    (h : compileVerb convert op verb fullPath tools = Run.value out) :
    (∀ t ∈ tools, t ∈ out)
    ∧ ∀ o, op = some o → ∃ r, convert o verb fullPath = Run.value r
        ∧ ∀ t, r = some t → t ∈ out := by
  cases op with
  | none =>
    cases h
    exact ⟨fun t ht => ht, fun o ho => by cases ho⟩
  | some o =>
    simp only [compileVerb] at h
    cases hc : convert o verb fullPath with
    | panic e => simp [hc] at h
    | error e => simp [hc] at h
    | value r =>
      cases r with
      | none =>
        simp only [hc] at h
        cases h
        refine ⟨fun t ht => ht, fun o1 ho => ?_⟩
        cases ho
        exact ⟨none, hc, fun t ht => by cases ht⟩
      | some tool =>
        simp only [hc] at h
        cases h
        refine ⟨fun t ht => List.mem_append_left _ ht, fun o1 ho => ?_⟩
        cases ho
        refine ⟨some tool, hc, fun t ht => ?_⟩
        cases ht
        simp

theorem compileVerbs_spec {Op : Type} (convert : Op → String → String → Run (Option Tool))
    (get post put delete patch : Option Op) (fullPath : String) (tools out : List Tool)
    (h : compileVerbs convert get post put delete patch fullPath tools = Run.value out) :
    (∀ t ∈ tools, t ∈ out)
    ∧ ∀ verb o, (verb, o) ∈ declaredOperations get post put delete patch →
        ∃ r, convert o verb fullPath = Run.value r ∧ ∀ t, r = some t → t ∈ out := by
  unfold compileVerbs at h
  obtain ⟨t4, h4, h5⟩ := Run.andThen_value _ _ _ h
  obtain ⟨t3, h3, h4⟩ := Run.andThen_value _ _ _ h4
  obtain ⟨t2, h2, h3⟩ := Run.andThen_value _ _ _ h3
  obtain ⟨t1, h1, h2⟩ := Run.andThen_value _ _ _ h2
  have s1 := compileVerb_spec convert get "GET" fullPath tools t1 h1
  have s2 := compileVerb_spec convert post "POST" fullPath t1 t2 h2
  have s3 := compileVerb_spec convert put "PUT" fullPath t2 t3 h3
  have s4 := compileVerb_spec convert delete "DELETE" fullPath t3 t4 h4
  have s5 := compileVerb_spec convert patch "PATCH" fullPath t4 out h5
  refine ⟨fun t ht => s5.1 t (s4.1 t (s3.1 t (s2.1 t (s1.1 t ht)))), ?_⟩
  intro verb o hin
  simp only [declaredOperations, List.mem_append, List.mem_map, Option.mem_toList,
    Option.mem_def, Prod.mk.injEq] at hin
  rcases hin with (((⟨o1, ho, hv, rfl⟩ | ⟨o1, ho, hv, rfl⟩) | ⟨o1, ho, hv, rfl⟩)
    | ⟨o1, ho, hv, rfl⟩) | ⟨o1, ho, hv, rfl⟩
  · obtain ⟨r, hr, hm⟩ := s1.2 o1 ho
    subst hv
    exact ⟨r, hr, fun t ht => s5.1 t (s4.1 t (s3.1 t (s2.1 t (hm t ht))))⟩
  · obtain ⟨r, hr, hm⟩ := s2.2 o1 ho
    subst hv
    exact ⟨r, hr, fun t ht => s5.1 t (s4.1 t (s3.1 t (hm t ht)))⟩
  · obtain ⟨r, hr, hm⟩ := s3.2 o1 ho
    subst hv
    exact ⟨r, hr, fun t ht => s5.1 t (s4.1 t (hm t ht))⟩
  · obtain ⟨r, hr, hm⟩ := s4.2 o1 ho
    subst hv
    exact ⟨r, hr, fun t ht => s5.1 t (hm t ht)⟩
  · obtain ⟨r, hr, hm⟩ := s5.2 o1 ho
    subst hv
    exact ⟨r, hr, hm⟩

namespace OpenAPI

theorem convertPaths_member (base : String) (paths : List (String × Option PathItem))
    (tools out : List Tool) (h : convertPaths base paths tools = Run.value out) :
    ∀ t ∈ out, t ∈ tools ∨ ∃ path item verb op, (path, some item) ∈ paths
      ∧ (verb, op) ∈ item.operations
      ∧ ConvertOperationToMCPTool op verb (base ++ path) = Run.value (some t) := by
  induction paths generalizing tools with
  | nil =>
    cases h
    exact fun t ht => Or.inl ht
  | cons p rest ih =>
    obtain ⟨path, item⟩ := p
    cases item with
    | none =>
      simp only [convertPaths] at h
      intro t ht
      rcases ih tools h t ht with e | ⟨path1, item1, verb, op, hin, hop, hc⟩
      · exact Or.inl e
      · exact Or.inr ⟨path1, item1, verb, op, List.mem_cons_of_mem _ hin, hop, hc⟩
    | some item =>
      simp only [convertPaths] at h
      obtain ⟨mid, h1, h2⟩ := Run.andThen_value _ _ _ h
      intro t ht
      rcases ih mid h2 t ht with e | ⟨path1, item1, verb, op, hin, hop, hc⟩
      · rcases compileVerbs_value _ _ _ _ _ _ _ _ _ h1 t e with e1 | ⟨verb, op, hop, hc⟩
        · exact Or.inl e1
        · exact Or.inr ⟨path, item, verb, op, List.mem_cons_self _ _, hop, hc⟩
      · exact Or.inr ⟨path1, item1, verb, op, List.mem_cons_of_mem _ hin, hop, hc⟩

theorem convertPaths_spec (base : String) (paths : List (String × Option PathItem))
    (tools out : List Tool) (h : convertPaths base paths tools = Run.value out) :
    (∀ t ∈ tools, t ∈ out)
    ∧ ∀ path item verb op, (path, some item) ∈ paths → (verb, op) ∈ item.operations →
        ∃ r, ConvertOperationToMCPTool op verb (base ++ path) = Run.value r
          ∧ ∀ t, r = some t → t ∈ out := by
  induction paths generalizing tools with
  | nil =>
    cases h
    exact ⟨fun t ht => ht, fun path item verb op hin => by cases hin⟩
  | cons p rest ih =>
    obtain ⟨path0, item0⟩ := p
    cases item0 with
    | none =>
      simp only [convertPaths] at h
      obtain ⟨hm, hs⟩ := ih tools h
      refine ⟨hm, fun path item verb op hin hop => ?_⟩
      rcases List.mem_cons.1 hin with e | e
      · cases e
      · exact hs path item verb op e hop
    | some item0 =>
      simp only [convertPaths] at h
      obtain ⟨mid, h1, h2⟩ := Run.andThen_value _ _ _ h
      obtain ⟨hm, hs⟩ := ih mid h2
      obtain ⟨hm1, hs1⟩ := compileVerbs_spec _ _ _ _ _ _ _ _ _ h1
      refine ⟨fun t ht => hm t (hm1 t ht), fun path item verb op hin hop => ?_⟩
      rcases List.mem_cons.1 hin with e | e
      · cases e
        obtain ⟨r, hr, hmem⟩ := hs1 verb op hop
        exact ⟨r, hr, fun t ht => hm t (hmem t ht)⟩
      · exact hs path item verb op e hop

end OpenAPI

theorem OpenAPI.ConvertOpenAPIToMCPTools_value (spec : OpenAPI.T) (tools : List Tool)
    (h : OpenAPI.ConvertOpenAPIToMCPTools spec = Run.value tools) :
    ∃ base, spec.servers.head? = some base
      ∧ OpenAPI.convertPaths base spec.paths [] = Run.value tools := by
  unfold OpenAPI.ConvertOpenAPIToMCPTools at h
  cases hs : spec.servers with
  | nil => simp [hs] at h
  | cons base rest =>
    simp only [hs] at h
    exact ⟨base, rfl, h⟩

/-- C14: for both compilers an operation with an empty operation id compiles to no
descriptor and no error (the return `nil, nil`), and no descriptor of a returned list
has an empty name; the Swagger compiler returns a list on every document. -/
theorem C14_empty_id_skipped :
    (∀ (op : OpenAPI.Operation) (method path : String), op.operationID = "" →
      OpenAPI.ConvertOperationToMCPTool op method path = Run.value none)
    ∧ (∀ (op : Swagger.Operation) (method path : String), op.id = "" →
      Swagger.convertOperationToMCPTool op method path = Run.value none)
    ∧ (∀ (spec : OpenAPI.T) (tools : List Tool),
      OpenAPI.ConvertOpenAPIToMCPTools spec = Run.value tools → ∀ t ∈ tools, t.name ≠ "")
    ∧ (∀ doc : Swagger.Doc, ∃ tools, Swagger.ConvertSwaggerToMCPTools doc = Run.value tools
      ∧ ∀ t ∈ tools, t.name ≠ "") := by
  refine ⟨?_, ?_, ?_, ?_⟩
  · intro op method path hid
    simp [OpenAPI.ConvertOperationToMCPTool, hid]
  · intro op method path hid
    simp [Swagger.convertOperationToMCPTool, hid]
  · intro spec tools h t ht
    obtain ⟨base, _, hp⟩ := OpenAPI.ConvertOpenAPIToMCPTools_value spec tools h
    rcases OpenAPI.convertPaths_member base spec.paths [] tools hp t ht with e
      | ⟨path, item, verb, op, _, _, hc⟩
    · cases e
    · obtain ⟨hid, st, out, _, _, rfl⟩ :=
        OpenAPI.ConvertOperationToMCPTool_value op verb (base ++ path) t hc
      exact hid
  · intro doc
    obtain ⟨tools, h⟩ := Swagger.convertPaths_returns (Swagger.baseURL doc) doc.paths []
    refine ⟨tools, h, fun t ht => ?_⟩
    rcases Swagger.convertPaths_value _ _ _ _ h t ht with e | ⟨path, item, verb, op, _, _, hc⟩
    · cases e
    · obtain ⟨hid, hn, _⟩ := Swagger.convertOperationToMCPTool_value op verb _ t hc
      rw [hn]
      exact hid

/-- C14 at concrete inputs: two operations without id, and the names in the list
compiled from a document. -/
theorem C14_empty_id_skipped_witness :
    OpenAPI.ConvertOperationToMCPTool Sample.anonymous "GET" "https://api.test/ping"
      = Run.value none
    ∧ Swagger.convertOperationToMCPTool Sample.swaggerAnonymous "GET" "https://api.test/ping"
      = Run.value none
    ∧ (∀ t ∈ [Sample.updateItemTool], t.name ≠ "") :=
  ⟨C14_empty_id_skipped.1 Sample.anonymous "GET" "https://api.test/ping" rfl,
    C14_empty_id_skipped.2.1 Sample.swaggerAnonymous "GET" "https://api.test/ping" rfl,
    C14_empty_id_skipped.2.2.1
      { servers := ["https://api.test"]
        paths := [("/items/\x7bid\x7d",
          some { get := some Sample.anonymous, post := none, put := some Sample.updateItem,
                 delete := none, patch := none })] }
      [Sample.updateItemTool] rfl⟩

/-! ## C19: a request body without JSON content -/

/-- C19 (amended): when `ConvertOpenAPIToMCPTools` returns a list, an operation with a
non-empty id whose request body has no media type that
`Content.Get("application/json")` finds is not skipped: the list holds its
descriptor, compiled from its parameters alone (no body property is added, body is
not appended to the required list); and every other declared operation with a
non-empty id has its descriptor in the list as well. -/
theorem C19_non_json_body_still_compiled (spec : OpenAPI.T) (tools : List Tool)
    (path : String) (item : OpenAPI.PathItem) (verb : String) (op : OpenAPI.Operation)
    (rb : OpenAPI.RequestBody)
    (h : OpenAPI.ConvertOpenAPIToMCPTools spec = Run.value tools)
    (hpath : (path, some item) ∈ spec.paths) (hop : (verb, op) ∈ item.operations)
    (hid : op.operationID ≠ "") (hrb : op.requestBody = some (some rb))
    (hjson : OpenAPI.contentGetJSON rb.content = none) :
    (∃ tool ∈ tools, tool.name = op.operationID
      ∧ tool.inputSchema.required = OpenAPI.requiredNames op.parameters
      ∧ ∃ base st, spec.servers.head? = some base
        ∧ OpenAPI.addParameters op.parameters
            (GoMap.set (GoMap.set [] "endpoint" (constProperty (base ++ path))) "method"
              (constProperty verb), []) = Run.value st
        ∧ tool.inputSchema.properties = st.1)
    ∧ (∀ path1 item1 verb1 op1, (path1, some item1) ∈ spec.paths →
        (verb1, op1) ∈ item1.operations → op1.operationID ≠ "" →
        ∃ tool ∈ tools, tool.name = op1.operationID) := by
  obtain ⟨base, hbase, hp⟩ := OpenAPI.ConvertOpenAPIToMCPTools_value spec tools h
  obtain ⟨_, hs⟩ := OpenAPI.convertPaths_spec base spec.paths [] tools hp
  have hsome : ∀ path1 item1 verb1 (op1 : OpenAPI.Operation), (path1, some item1) ∈ spec.paths →
      (verb1, op1) ∈ item1.operations → op1.operationID ≠ "" →
      ∃ tool, tool ∈ tools
        ∧ OpenAPI.ConvertOperationToMCPTool op1 verb1 (base ++ path1) = Run.value (some tool) := by
    intro path1 item1 verb1 op1 hin hop1 hid1
    obtain ⟨r, hr, hm⟩ := hs path1 item1 verb1 op1 hin hop1
    cases r with
    | none =>
      exfalso
      unfold OpenAPI.ConvertOperationToMCPTool at hr
      simp only [hid1, if_false] at hr
      split at hr
      · cases hr
      · cases hr
      · split at hr <;> cases hr
    | some tool => exact ⟨tool, hm tool rfl, hr⟩
  constructor
  · obtain ⟨tool, hin, hc⟩ := hsome path item verb op hpath hop hid
    obtain ⟨_, st, out, hst, hout, rfl⟩ :=
      OpenAPI.ConvertOperationToMCPTool_value op verb (base ++ path) tool hc
    have hnone : OpenAPI.requiresBody op = false := by
      simp [OpenAPI.requiresBody, hrb, hjson]
    have hout1 : out = st := by
      unfold OpenAPI.addRequestBody at hout
      simp only [hrb, hjson] at hout
      cases hout
      rfl
    subst hout1
    refine ⟨_, hin, rfl, ?_, base, out, hbase, hst, rfl⟩
    have := OpenAPI.addParameters_required _ _ _ hst
    simpa using this
  · intro path1 item1 verb1 op1 hin hop1 hid1
    obtain ⟨tool, hmem, hc⟩ := hsome path1 item1 verb1 op1 hin hop1 hid1
    obtain ⟨_, st, out, _, _, rfl⟩ :=
      OpenAPI.ConvertOperationToMCPTool_value op1 verb1 (base ++ path1) tool hc
    exact ⟨_, hmem, rfl⟩

/-- C19 at a concrete input: the operation `uploadNote` of the document
`notesAndPets`, whose body is declared for plain text only. -/
theorem C19_non_json_body_still_compiled_witness :
    ∃ tool ∈ Sample.notesAndPetsTools, tool.name = Sample.uploadNote.operationID
      ∧ tool.inputSchema.required = OpenAPI.requiredNames Sample.uploadNote.parameters
      ∧ ∃ base st, Sample.notesAndPets.servers.head? = some base
        ∧ OpenAPI.addParameters Sample.uploadNote.parameters
            (GoMap.set (GoMap.set [] "endpoint" (constProperty (base ++ "/notes"))) "method"
              (constProperty "POST"), []) = Run.value st
        ∧ tool.inputSchema.properties = st.1 :=
  (C19_non_json_body_still_compiled Sample.notesAndPets Sample.notesAndPetsTools "/notes"
    { get := none, post := some Sample.uploadNote, put := none, delete := none, patch := none }
    "POST" Sample.uploadNote
    { required := true
      content := [("text/plain", some { schema := some (some (Sample.typed ["string"])) })] }
    rfl (by simp [Sample.notesAndPets])
    (by simp [OpenAPI.PathItem.operations, declaredOperations])
    (by decide) rfl rfl).1

/-- C19 as stated fails: the operation `uploadNote`, whose request body is declared
for plain text only, contributes its descriptor to the list, next to the descriptor
of `listPets`. -/
theorem C19_counterexample :
    OpenAPI.contentAt [("text/plain", some { schema := some (some (Sample.typed ["string"])) })]
        "application/json" = none
    ∧ ∃ tools, OpenAPI.ConvertOpenAPIToMCPTools Sample.notesAndPets = Run.value tools
      ∧ tools.map (fun t => t.name) = ["uploadNote", "listPets"]
      ∧ tools.map (fun t => t.inputSchema.properties.keys)
          = [["endpoint", "method"], ["endpoint", "method"]] :=
  ⟨rfl, _, rfl, rfl, rfl⟩

/-! ## C21: two operations with one operation id -/

theorem GoMap.keys_set {α : Type} (m : GoMap α) (k : String) (v : α) :
    (m.set k v).keys = if k ∈ m.keys then m.keys else m.keys ++ [k] := by
  induction m with
  | nil => simp [GoMap.set, GoMap.keys]
  | cons p rest ih =>
    obtain ⟨k1, w⟩ := p
    simp only [GoMap.keys] at ih
    by_cases h : k1 = k
    · subst h
      simp [GoMap.set, GoMap.keys]
    · have h1 : ¬ k = k1 := fun e => h e.symm
      simp only [GoMap.set, h, if_false, GoMap.keys, List.map_cons, List.mem_cons, h1, false_or,
        ih]
      split <;> simp

theorem GoMap.nodup_keys_set {α : Type} (m : GoMap α) (k : String) (v : α)
    (h : m.keys.Nodup) : (m.set k v).keys.Nodup := by
  rw [GoMap.keys_set]
  split
  · exact h
  · rename_i hk
    rw [List.nodup_append]
    refine ⟨h, by simp, ?_⟩
    intro a ha hb
    simp only [List.mem_singleton] at hb
    subst hb
    exact hk ha

theorem foldl_AddTool_keys (tools : List Tool) (acc : GoMap Tool) (h : acc.keys.Nodup) :
    (tools.foldl AddTool acc).keys.Nodup := by
  induction tools generalizing acc with
  | nil => exact h
  | cons t rest ih => exact ih _ (GoMap.nodup_keys_set acc t.name t h)

theorem getLast?_cons_nonempty {α : Type} (a : α) (l : List α) (h : l ≠ []) :
    (a :: l).getLast? = l.getLast? := by
  cases l with
  | nil => exact absurd rfl h
  | cons b l1 => simp [List.getLast?_cons_cons]

theorem foldl_AddTool_get (tools : List Tool) (acc : GoMap Tool) (name : String) :
    (tools.foldl AddTool acc).get name
      = (match lastNamed tools name with
          | some t => some t
          | none => acc.get name) := by
  induction tools generalizing acc with
  | nil => rfl
  | cons t rest ih =>
    rw [List.foldl_cons, ih]
    by_cases hn : t.name = name
    · have hf : (t :: rest).filter (fun x => x.name == name)
          = t :: rest.filter (fun x => x.name == name) := by simp [hn]
      cases hl : lastNamed rest name with
      | some u =>
        have hne : rest.filter (fun x => x.name == name) ≠ [] := by
          intro e
          simp [lastNamed, e] at hl
        simp only [lastNamed] at hl ⊢
        rw [hf, getLast?_cons_nonempty t _ hne, hl]
      | none =>
        have he : rest.filter (fun x => x.name == name) = [] := by
          simpa [lastNamed, List.getLast?_eq_none_iff] using hl
        simp only [lastNamed]
        rw [hf, he]
        simp [AddTool, hn, GoMap.get_set_self]
    · have hf : (t :: rest).filter (fun x => x.name == name)
          = rest.filter (fun x => x.name == name) := by simp [hn]
      simp only [lastNamed]
      rw [hf]
      cases (rest.filter (fun x => x.name == name)).getLast? with
      | some u => rfl
      | none => simp [AddTool, GoMap.get_set_ne _ _ _ _ hn]

theorem foldl_AddTool_entries (tools : List Tool) (acc : GoMap Tool)
    (h : ∀ e ∈ acc, e.2.name = e.1) : ∀ e ∈ tools.foldl AddTool acc, e.2.name = e.1 := by
  induction tools generalizing acc with
  | nil => exact h
  | cons t rest ih =>
    apply ih
    intro e he
    have hset : ∀ (m : GoMap Tool), (∀ x ∈ m, x.2.name = x.1) →
        ∀ x ∈ m.set t.name t, x.2.name = x.1 := by
      intro m
      induction m with
      | nil =>
        intro _ x hx
        simp only [GoMap.set, List.mem_singleton] at hx
        subst hx
        rfl
      | cons p m1 ihm =>
        intro hm x hx
        obtain ⟨k1, w⟩ := p
        by_cases hk : k1 = t.name
        · simp only [GoMap.set, hk, if_true, List.mem_cons] at hx
          rcases hx with rfl | hx
          · rfl
          · exact hm x (List.mem_cons_of_mem _ hx)
        · simp only [GoMap.set, hk, if_false, List.mem_cons] at hx
          rcases hx with rfl | hx
          · exact hm _ (List.mem_cons_self _ _)
          · exact ihm (fun y hy => hm y (List.mem_cons_of_mem _ hy)) x hx
    exact hset acc h e he

/-- C21: after the descriptors `tools` of a document are registered in the order in
which they were compiled, the final set has no two entries under one name, under
every name it holds the descriptor compiled last under that name, and so for every
compiled descriptor exactly one entry of the set bears its name. -/
theorem C21_last_compiled_wins (tools : List Tool) :
    (registerTools tools).keys.Nodup
    ∧ (∀ name, (registerTools tools).get name = lastNamed tools name)
    ∧ (∀ tool ∈ tools,
        ((registerTools tools).map (fun e => e.2.name)).count tool.name = 1) := by
  have hnd : (registerTools tools).keys.Nodup := foldl_AddTool_keys tools [] List.nodup_nil
  have hget : ∀ name, (registerTools tools).get name = lastNamed tools name := by
    intro name
    unfold registerTools
    rw [foldl_AddTool_get]
    cases lastNamed tools name <;> rfl
  refine ⟨hnd, hget, ?_⟩
  intro tool htool
  have hmap : (registerTools tools).map (fun e => e.2.name) = (registerTools tools).keys := by
    unfold GoMap.keys
    apply List.map_congr_left
    intro e he
    exact foldl_AddTool_entries tools [] (fun x hx => by cases hx) e he
  rw [hmap]
  apply List.count_eq_one_of_mem hnd
  by_contra hnot
  have hnone := (GoMap.get_eq_none_iff (registerTools tools) tool.name).2 hnot
  rw [hget, lastNamed, List.getLast?_eq_none_iff] at hnone
  have hin : tool ∈ tools.filter (fun t => t.name == tool.name) := by
    simp [List.mem_filter, htool]
  rw [hnone] at hin
  cases hin

/-- C21 at a concrete input: a document whose paths `/a` and `/b` both declare the
operation id `getThing` compiles to two descriptors, of which the set keeps the one
for `/b`. -/
theorem C21_last_compiled_wins_witness :
    OpenAPI.ConvertOpenAPIToMCPTools Sample.sharedId
      = Run.value [Sample.getThingTool "/a" "first", Sample.getThingTool "/b" "second"]
    ∧ registerTools [Sample.getThingTool "/a" "first", Sample.getThingTool "/b" "second"]
      = [("getThing", Sample.getThingTool "/b" "second")]
    ∧ (registerTools [Sample.getThingTool "/a" "first",
          Sample.getThingTool "/b" "second"]).get "getThing"
      = lastNamed [Sample.getThingTool "/a" "first", Sample.getThingTool "/b" "second"]
          "getThing" :=
  ⟨rfl, rfl,
    (C21_last_compiled_wins
      [Sample.getThingTool "/a" "first", Sample.getThingTool "/b" "second"]).2.1 "getThing"⟩

/-! ## C22: descriptors without usable constants -/

/-- A descriptor whose endpoint or method property gives the handler no constant makes
it return an error result without sending anything. -/
theorem createHandler_without_constant {V : Type} (rt : GoRuntime V) (tool : Tool)
    (client : Request → Except String Response) (args : GoMap V)
    (h : constOf tool.inputSchema.properties "endpoint" = none
      ∨ constOf tool.inputSchema.properties "method" = none) :
    (createHandler rt tool client args).sent = []
    ∧ ∃ result, (createHandler rt tool client args).outcome = Run.value result
        ∧ result.isError = true := by
  cases he : constOf tool.inputSchema.properties "endpoint" with
  | none => simp [createHandler, prepare, he, NewToolResultError]
  | some c =>
    rcases h with h | h
    · rw [he] at h
      cases h
    · simp [createHandler, prepare, he, h, NewToolResultError]

namespace OpenAPI

theorem convertSchema_unfold (type : Option (List String)) (format description : String)
    (items : Option (Option Schema)) (properties : Option (List (String × Option Schema)))
    (required : List String) (min max : Option Nat) (minLength : Nat) (maxLength : Option Nat)
    (pattern : String) (enum : List Any) :
    convertSchema (Schema.mk type format description items properties required min max
        minLength maxLength pattern enum)
      = setIf (decide (enum.length > 0))
          (setIf (decide (pattern ≠ ""))
            (setSome
              (setIf (decide (minLength ≠ 0))
                (setSome
                  (setSome
                    (match convertPropertiesField properties with
                      | some props =>
                        setIf (decide (required.length > 0))
                          (GoMap.set
                            (setSome
                              (setIf (decide (description ≠ ""))
                                (setIf (decide (format ≠ ""))
                                  (setIf (decide ((GetSchemaType type).length > 0)) []
                                    "type" (Any.str "object"))
                                  "format" (Any.str format))
                                "description" (Any.str description))
                              "items" (convertItems items))
                            "properties" props)
                          "required" (Any.strs required)
                      | none =>
                        setSome
                          (setIf (decide (description ≠ ""))
                            (setIf (decide (format ≠ ""))
                              (setIf (decide ((GetSchemaType type).length > 0)) []
                                "type" (Any.str "object"))
                              "format" (Any.str format))
                            "description" (Any.str description))
                          "items" (convertItems items))
                    "minimum" (min.map Any.float))
                  "maximum" (max.map Any.float))
                "minLength" (Any.uint minLength))
              "maxLength" (maxLength.map Any.uint))
            "pattern" (Any.str pattern))
          "enum" (Any.list enum) := by
  cases properties <;> rfl

theorem convertSchema_get_const (s : Schema) : (convertSchema s).get "const" = none := by
  cases s with
  | mk type format description items properties required min max minLength maxLength
      pattern enum =>
    rw [convertSchema_unfold]
    cases convertPropertiesField properties <;> cases min <;> cases max <;> cases maxLength <;>
      cases convertItems items <;>
      simp [get_setIf, get_setSome, GoMap.get_set, GoMap.get]

theorem ConvertSchemaToMap_get_const (s : Option Schema) :
    (ConvertSchemaToMap s).get "const" = none := by
  cases s with
  | none => rfl
  | some s => exact convertSchema_get_const s

end OpenAPI

theorem constKept_set (key c name : String) (props m : GoMap Any)
    (hm : GoMap.get m "const" = none) (h : ConstKept key c props) :
    ConstKept key c (props.set name (Any.map m)) := by
  by_cases he : name = key
  · right
    exact ⟨m, by rw [he, GoMap.get_set_self], hm⟩
  · unfold ConstKept
    rw [GoMap.get_set_ne _ _ _ _ he]
    exact h

theorem constOf_of_constKept (key c : String) (props : GoMap Any) (h : ConstKept key c props) :
    constOf props key = none ∨ constOf props key = some (Any.str c) := by
  rcases h with h | ⟨m, h, hm⟩
  · right
    simp [constOf, h, constProperty, GoMap.get]
  · left
    simp [constOf, h, hm]

theorem get_described_const (m : GoMap Any) (d : String) (hm : GoMap.get m "const" = none) :
    GoMap.get (if d ≠ "" then m.set "description" (Any.str d) else m) "const" = none := by
  split
  · rw [GoMap.get_set_ne _ _ _ _ (by decide)]
    exact hm
  · exact hm

namespace Swagger

theorem addParameter_constKept (key c : String) (st : GoMap Any × List String)
    (param : Parameter) (h : ConstKept key c st.1) :
    ConstKept key c (addParameter st param).1 := by
  unfold addParameter
  by_cases hn : param.name = ""
  · rw [if_pos hn]
    exact h
  · rw [if_neg hn]
    have hset := constKept_set key c param.name st.1 _
      (get_described_const _ param.description (convertSchemaToMap_no_const param.schema)) h
    by_cases hb : param.in_ = "body" ∧ param.schema.isSome = true
    · rw [if_pos hb]
      exact constKept_set key c "body" _ _ (convertSchemaToMap_no_const param.schema) hset
    · rw [if_neg hb]
      exact hset

theorem foldl_addParameter_constKept (key c : String) (params : List Parameter)
    (st : GoMap Any × List String) (h : ConstKept key c st.1) :
    ConstKept key c (params.foldl addParameter st).1 := by
  induction params generalizing st with
  | nil => exact h
  | cons q rest ih => exact ih _ (addParameter_constKept key c st q h)

theorem swagger_compiled_constKept (op : Operation) (method path : String) (tool : Tool)
    (h : convertOperationToMCPTool op method path = Run.value (some tool)) :
    ConstKept "endpoint" path tool.inputSchema.properties
      ∧ ConstKept "method" method tool.inputSchema.properties := by
  unfold convertOperationToMCPTool at h
  by_cases hid : op.id = ""
  · simp [hid] at h
  · simp only [hid, if_false, Run.value.injEq, Option.some.injEq] at h
    subst h
    exact ⟨foldl_addParameter_constKept _ _ _ _ (Or.inl rfl),
      foldl_addParameter_constKept _ _ _ _ (Or.inl rfl)⟩

end Swagger

namespace OpenAPI

theorem addParameters_constKept (key c : String) (params : List (Option Parameter))
    (st out : GoMap Any × List String) (hrun : addParameters params st = Run.value out)
    (h : ConstKept key c st.1) : ConstKept key c out.1 := by
  induction params generalizing st with
  | nil =>
    cases hrun
    exact h
  | cons p rest ih =>
    simp only [addParameters] at hrun
    cases hp : addParameter st p with
    | error e => simp [hp] at hrun
    | panic e => simp [hp] at hrun
    | value st1 =>
      simp only [hp] at hrun
      apply ih st1 hrun
      cases p with
      | none =>
        cases hp
        exact h
      | some q =>
        simp only [addParameter] at hp
        cases hq : q.schema with
        | none => simp [hq] at hp
        | some ref =>
          simp only [hq] at hp
          cases hp
          exact constKept_set key c q.name st.1 _
            (get_described_const _ q.description (ConvertSchemaToMap_get_const ref)) h

theorem addRequestBody_constKept (key c : String) (rb : Option (Option RequestBody))
    (st out : GoMap Any × List String) (hrun : addRequestBody st rb = Run.value out)
    (h : ConstKept key c st.1) : ConstKept key c out.1 := by
  unfold addRequestBody at hrun
  split at hrun
  · split at hrun
    · split at hrun
      · cases hrun
      · cases hrun
        exact constKept_set key c "body" st.1 _ (ConvertSchemaToMap_get_const _) h
    · cases hrun
      exact h
  · cases hrun
    exact h

theorem openapi_compiled_constKept (op : Operation) (method path : String) (tool : Tool)
    (h : ConvertOperationToMCPTool op method path = Run.value (some tool)) :
    ConstKept "endpoint" path tool.inputSchema.properties
      ∧ ConstKept "method" method tool.inputSchema.properties := by
  obtain ⟨_, st, out, hp, hb, rfl⟩ := ConvertOperationToMCPTool_value op method path tool h
  exact ⟨addRequestBody_constKept _ _ _ _ _ hb
      (addParameters_constKept _ _ _ _ _ hp (Or.inl rfl)),
    addRequestBody_constKept _ _ _ _ _ hb
      (addParameters_constKept _ _ _ _ _ hp (Or.inl rfl))⟩

end OpenAPI

/-- Every descriptor of a list the router returns was compiled by one of the two
operation compilers, so each of its two reserved properties is the constant written
first or the schema of a declared parameter, which has no const. -/
theorem ParseSpecRouter_constKept (env : SpecFiles) (specPath : String) (tools : List Tool)
    (h : ParseSpecRouter env specPath = Run.value tools) :
    ∀ tool ∈ tools, ∃ method path,
      ConstKept "endpoint" path tool.inputSchema.properties
        ∧ ConstKept "method" method tool.inputSchema.properties := by
  intro tool ht
  unfold ParseSpecRouter at h
  cases hv : DetectSpecVersion env specPath with
  | error e => simp [hv] at h
  | ok v =>
    simp only [hv] at h
    by_cases h2 : strHasPrefix v "2." = true
    · rw [if_pos h2] at h
      cases hl : env.LoadSwaggerSpec specPath with
      | error e => simp [hl] at h
      | ok doc =>
        simp only [hl] at h
        cases hc : Swagger.ConvertSwaggerToMCPTools doc with
        | error e => simp [hc] at h
        | panic e => simp [hc] at h
        | value out =>
          simp only [hc, Run.value.injEq] at h
          subst h
          rcases Swagger.convertPaths_value _ _ _ _ hc tool ht with
            e | ⟨path, item, verb, op, _, _, hop⟩
          · cases e
          · exact ⟨verb, _, Swagger.swagger_compiled_constKept op verb _ tool hop⟩
    · rw [if_neg h2] at h
      by_cases h3 : strHasPrefix v "3." = true
      · rw [if_pos h3] at h
        cases hl : env.LoadOpenApiSpec specPath with
        | error e => simp [hl] at h
        | ok doc =>
          simp only [hl] at h
          cases hc : OpenAPI.ConvertOpenAPIToMCPTools doc with
          | error e => simp [hc] at h
          | panic e => simp [hc] at h
          | value out =>
            simp only [hc, Run.value.injEq] at h
            subst h
            obtain ⟨base, _, hp⟩ := OpenAPI.ConvertOpenAPIToMCPTools_value doc out hc
            rcases OpenAPI.convertPaths_member _ _ _ _ hp tool ht with
              e | ⟨path, item, verb, op, _, _, hop⟩
            · cases e
            · exact ⟨verb, _, OpenAPI.openapi_compiled_constKept op verb _ tool hop⟩
      · rw [if_neg h3] at h
        cases h

/-- With both constants strings the handler goes on to the request: it replies or
sends, and does not panic. -/
theorem prepare_strings_ne_panic {V : Type} (rt : GoRuntime V) (tool : Tool) (args : GoMap V)
    (e m : String)
    (he : constOf tool.inputSchema.properties "endpoint" = some (Any.str e))
    (hm : constOf tool.inputSchema.properties "method" = some (Any.str m)) (msg : String) :
    prepare rt tool args ≠ Prepared.panic msg := by
  simp only [prepare, he, hm]
  cases args.get "body" with
  | none =>
    simp only
    cases rt.newRequestError m (resolveURL rt e args) <;> simp
  | some b =>
    simp only
    cases rt.marshalIndent b with
    | error err => simp
    | ok j =>
      simp only
      cases rt.newRequestError m (resolveURL rt e args) <;> simp

/-- C22: a descriptor reaches the handler from the list `ParseSpecRouter` returns
(`main.go` builds one handler per descriptor of that list).  For every such descriptor
and every argument map: a constant the handler finds under endpoint or method is a
string, so the type assertions succeed and the invocation never panics; and when the
endpoint or the method property gives no constant (it is absent, is not a map, or has
no const) the handler sends no request and returns, with a nil error, the error
result "Endpoint configuration not found in tool schema" or "Method configuration not
found in tool schema". -/
theorem C22_unusable_constant_is_not_fatal {V : Type} (rt : GoRuntime V) (env : SpecFiles)
    (specPath : String) (tools : List Tool) (tool : Tool)
    (client : Request → Except String Response) (args : GoMap V)
    (hrun : ParseSpecRouter env specPath = Run.value tools) (hin : tool ∈ tools) :
    (∀ c, constOf tool.inputSchema.properties "endpoint" = some c → ∃ e, c = Any.str e)
    ∧ (∀ c, constOf tool.inputSchema.properties "method" = some c → ∃ m, c = Any.str m)
    ∧ (∀ msg, (createHandler rt tool client args).outcome ≠ Run.panic msg)
    ∧ (constOf tool.inputSchema.properties "endpoint" = none →
        createHandler rt tool client args
          = { sent := []
              outcome := Run.value
                (NewToolResultError "Endpoint configuration not found in tool schema") })
    ∧ (constOf tool.inputSchema.properties "endpoint" ≠ none →
        constOf tool.inputSchema.properties "method" = none →
        createHandler rt tool client args
          = { sent := []
              outcome := Run.value
                (NewToolResultError "Method configuration not found in tool schema") }) := by
  obtain ⟨method, path, hke, hkm⟩ := ParseSpecRouter_constKept env specPath tools hrun tool hin
  have he := constOf_of_constKept _ _ _ hke
  have hm := constOf_of_constKept _ _ _ hkm
  refine ⟨?_, ?_, ?_, ?_, ?_⟩
  · intro c hc
    rcases he with he | he
    · rw [he] at hc
      cases hc
    · rw [he] at hc
      cases hc
      exact ⟨path, rfl⟩
  · intro c hc
    rcases hm with hm | hm
    · rw [hm] at hc
      cases hc
    · rw [hm] at hc
      cases hc
      exact ⟨method, rfl⟩
  · intro msg
    rcases he with he | he
    · simp [createHandler, prepare, he]
    · rcases hm with hm | hm
      · simp [createHandler, prepare, he, hm]
      · have hp := prepare_strings_ne_panic rt tool args path method he hm
        unfold createHandler
        cases hq : prepare rt tool args with
        | panic m => exact absurd hq (hp m)
        | reply r => simp
        | send r => simp
  · intro h0
    simp [createHandler, prepare, h0]
  · intro h0 h1
    cases hc : constOf tool.inputSchema.properties "endpoint" with
    | none => exact absurd hc h0
    | some c => simp [createHandler, prepare, hc, h1]

theorem C22_unusable_constant_is_not_fatal_witness :
    ParseSpecRouter (Sample.swaggerFiles Sample.shadowedDoc) "api.json"
      = Run.value [Sample.shadowedTool]
    ∧ constOf Sample.shadowedTool.inputSchema.properties "endpoint" = none
    ∧ (createHandler Sample.runtime Sample.shadowedTool (Sample.answer 200 "pong")
        [("id", "7")])
      = { sent := []
          outcome := Run.value
            (NewToolResultError "Endpoint configuration not found in tool schema") }
    ∧ ∀ msg, (createHandler Sample.runtime Sample.shadowedTool (Sample.answer 200 "pong")
        [("id", "7")]).outcome ≠ Run.panic msg :=
  have h := C22_unusable_constant_is_not_fatal Sample.runtime
    (Sample.swaggerFiles Sample.shadowedDoc) "api.json" [Sample.shadowedTool]
    Sample.shadowedTool (Sample.answer 200 "pong") [("id", "7")] rfl
    (List.mem_singleton.2 rfl)
  ⟨rfl, rfl, h.2.2.2.1 rfl, h.2.2.1⟩

/-- Outside the compilers: on a descriptor built by hand with the number 42 as endpoint
constant the handler passes the test `endpoint["const"] == nil` and panics in the type
assertion `endpoint["const"].(string)`. -/
theorem createHandler_numeric_constant_panics :
    (createHandler Sample.runtime Sample.numericEndpoint (Sample.answer 200 "pong")
        [("id", "7")]).outcome
      = Run.panic "interface conversion: interface \x7b\x7d is float64, not string" := rfl

/-! ## C24: totality of the OpenAPI compiler -/

/-- C24, the code at the failing inputs: `ConvertOpenAPIToMCPTools` panics on a document
without servers (index out of range), on a parameter whose schema reference is nil
and on a JSON media type whose schema reference is nil (nil pointer dereference). -/
theorem C24_openapi_compiler_panics :
    OpenAPI.ConvertOpenAPIToMCPTools Sample.noServers
      = Run.panic "runtime error: index out of range [0] with length 0"
    ∧ OpenAPI.ConvertOpenAPIToMCPTools (Sample.oneOperation Sample.search)
      = Run.panic OpenAPI.nilDereference
    ∧ OpenAPI.ConvertOpenAPIToMCPTools (Sample.oneOperation Sample.createNote)
      = Run.panic OpenAPI.nilDereference :=
  ⟨rfl, rfl, rfl⟩

/-! ## C23: the order in which the arguments are visited -/

theorem resolveURL_fillTemplate {V : Type} (rt : GoRuntime V) (segs : List Segment)
    (args : GoMap V) (hsegs : ∀ seg ∈ segs, seg.plain = true) (hkeys : args.keys.Nodup)
    (hargs : ∀ arg ∈ args, substitutable arg.1 = true →
      hasClose arg.1 = false ∧ hasOpen (rt.sprint arg.2) = false)
    (order : GoMap V) (horder : List.Perm order args) :
    resolveURL rt (renderTemplate segs) order = fillTemplate rt args segs := by
  have hk : order.keys.Nodup := (List.Perm.nodup_iff (horder.map Prod.fst)).2 hkeys
  rw [resolveURL_renderTemplate rt order segs hsegs
      (fun arg ha => hargs arg (horder.mem_iff.1 ha)),
    renderTemplate_foldl]
  exact fillTemplate_congr rt order args (fun k => GoMap.get_perm horder hk k) segs

/-- C23 (amended): for a template whose braces only delimit placeholders, and arguments
(each key once) whose substitutable keys have no closing brace and whose substitutable
values have a text without opening brace, any two orders in which the handler may
visit the arguments give the same URL. -/
theorem C23_order_independent {V : Type} (rt : GoRuntime V) (segs : List Segment)
    (args : GoMap V) (hsegs : ∀ seg ∈ segs, seg.plain = true) (hkeys : args.keys.Nodup)
    (hargs : ∀ arg ∈ args, substitutable arg.1 = true →
      hasClose arg.1 = false ∧ hasOpen (rt.sprint arg.2) = false)
    (first second : GoMap V) (hfirst : List.Perm first args)
    (hsecond : List.Perm second args) :
    resolveURL rt (renderTemplate segs) first = resolveURL rt (renderTemplate segs) second := by
  rw [resolveURL_fillTemplate rt segs args hsegs hkeys hargs first hfirst,
    resolveURL_fillTemplate rt segs args hsegs hkeys hargs second hsecond]

/-- C23 at a concrete input: the template `/shops/{shop}/items/{item}` with the
arguments visited in the two possible orders. -/
theorem C23_order_independent_witness :
    resolveURL Sample.runtime
        (renderTemplate [Segment.lit "/shops/", Segment.hole "shop", Segment.lit "/items/",
          Segment.hole "item"]) [("shop", "3"), ("item", "9")]
      = resolveURL Sample.runtime
        (renderTemplate [Segment.lit "/shops/", Segment.hole "shop", Segment.lit "/items/",
          Segment.hole "item"]) [("item", "9"), ("shop", "3")]
    ∧ resolveURL Sample.runtime "/shops/\x7bshop\x7d/items/\x7bitem\x7d"
        [("item", "9"), ("shop", "3")] = "/shops/3/items/9" :=
  ⟨C23_order_independent Sample.runtime _ [("shop", "3"), ("item", "9")]
      (by decide) (by decide) (by decide) [("shop", "3"), ("item", "9")]
      [("item", "9"), ("shop", "3")] (List.Perm.refl _) (List.Perm.swap _ _ _),
    by decide⟩

/-- C23 as stated fails: with the template `/{a}` and the arguments a = `{b}`, b = x
the handler resolves `/x` when it visits a before b and `/{b}` when it visits b
before a. -/
theorem C23_counterexample :
    List.Perm [("b", "x"), ("a", "\x7bb\x7d")] [("a", "\x7bb\x7d"), ("b", "x")]
    ∧ resolveURL Sample.runtime "/\x7ba\x7d" [("a", "\x7bb\x7d"), ("b", "x")] = "/x"
    ∧ resolveURL Sample.runtime "/\x7ba\x7d" [("b", "x"), ("a", "\x7bb\x7d")] = "/\x7bb\x7d"
    ∧ resolveURL Sample.runtime "/\x7ba\x7d" [("a", "\x7bb\x7d"), ("b", "x")]
      ≠ resolveURL Sample.runtime "/\x7ba\x7d" [("b", "x"), ("a", "\x7bb\x7d")] :=
  ⟨List.Perm.swap _ _ _, by decide, by decide, by decide⟩

/-! ## C25: Swagger parameters without schema -/

namespace Swagger

theorem addParameter_schemaless (st : GoMap Any × List String) (param : Parameter)
    (hname : param.name ≠ "") (hschema : param.schema = none) :
    (addParameter st param).1.get param.name = some (schemalessProperty param.description) := by
  unfold addParameter schemalessProperty
  rw [if_neg hname]
  simp only [hschema, Option.isSome_none, Bool.false_eq_true, and_false, if_false]
  rw [GoMap.get_set_self]
  by_cases hd : param.description = ""
  · simp [hd]
    rfl
  · simp [hd]
    rfl

theorem addParameter_get_other (st : GoMap Any × List String) (q : Parameter) (key : String)
    (h : ¬ writesProperty q key) :
    (addParameter st q).1.get key = st.1.get key := by
  unfold writesProperty at h
  unfold addParameter
  by_cases hn : q.name = ""
  · rw [if_pos hn]
  · rw [if_neg hn]
    have hk : q.name ≠ key := fun e => h ⟨hn, Or.inl e⟩
    by_cases hb : q.in_ = "body" ∧ q.schema.isSome = true
    · rw [if_pos hb]
      have hkb : ("body" : String) ≠ key := fun e => h ⟨hn, Or.inr ⟨e.symm, hb.1, hb.2⟩⟩
      simp only
      rw [GoMap.get_set_ne _ _ _ _ hkb, GoMap.get_set_ne _ _ _ _ hk]
    · rw [if_neg hb]
      simp only
      rw [GoMap.get_set_ne _ _ _ _ hk]

theorem foldl_addParameter_get_other (params : List Parameter) (st : GoMap Any × List String)
    (key : String) (h : ∀ q ∈ params, ¬ writesProperty q key) :
    (params.foldl addParameter st).1.get key = st.1.get key := by
  induction params generalizing st with
  | nil => rfl
  | cons q rest ih =>
    rw [List.foldl_cons, ih _ (fun x hx => h x (List.mem_cons_of_mem _ hx)),
      addParameter_get_other st q key (h q (List.mem_cons_self _ _))]

end Swagger

/-- C25: a Swagger parameter with a non-empty name and no schema compiles, in its turn
of the parameter loop, to the property `{type: object}` plus its description when it
has one, whatever type, format, enum and bounds it declares on itself; and that is
the property of its name in the descriptor whenever no parameter declared after it
writes the same property. -/
theorem C25_schemaless_parameter (param : Swagger.Parameter) (hname : param.name ≠ "")
    (hschema : param.schema = none) :
    (∀ st : GoMap Any × List String,
      (Swagger.addParameter st param).1.get param.name
        = some (Swagger.schemalessProperty param.description))
    ∧ (∀ (op : Swagger.Operation) (method path : String) (tool : Tool)
        (before after : List Swagger.Parameter),
        op.parameters = before ++ param :: after →
        (∀ q ∈ after, ¬ Swagger.writesProperty q param.name) →
        Swagger.convertOperationToMCPTool op method path = Run.value (some tool) →
        tool.inputSchema.properties.get param.name
          = some (Swagger.schemalessProperty param.description)) := by
  refine ⟨fun st => Swagger.addParameter_schemaless st param hname hschema, ?_⟩
  intro op method path tool before after hparams hafter h
  unfold Swagger.convertOperationToMCPTool at h
  by_cases hid : op.id = ""
  · simp [hid] at h
  · simp only [hid, if_false, Run.value.injEq, Option.some.injEq] at h
    subst h
    simp only [hparams, List.foldl_append, List.foldl_cons]
    rw [Swagger.foldl_addParameter_get_other after _ param.name hafter]
    exact Swagger.addParameter_schemaless _ param hname hschema

/-- C25 at a concrete input: the query parameter `limit`, declared as an integer of
format int32 with an enum and bounds, compiles to type object with its description. -/
theorem C25_schemaless_parameter_witness :
    (∀ st : GoMap Any × List String,
      (Swagger.addParameter st Sample.limit).1.get "limit"
        = some (Any.map [("type", Any.str "object"), ("description", Any.str "page size")]))
    ∧ (∃ tool, Swagger.convertOperationToMCPTool Sample.swaggerListPets "GET"
          "https://api.test/v1/pets" = Run.value (some tool)
        ∧ tool.inputSchema.properties.get "limit"
          = some (Any.map [("type", Any.str "object"), ("description", Any.str "page size")])
        ∧ tool.inputSchema.properties.get "X-Trace"
          = some (Any.map [("type", Any.str "object")])) :=
  ⟨(C25_schemaless_parameter Sample.limit (by decide) rfl).1, ⟨_, rfl, rfl, rfl⟩⟩

/-! ## C2: reserved argument keys are ignored -/

theorem GoMap.get_filter_reserved {V : Type} (m : GoMap V) (k : String)
    (hk : reservedKey k = false) :
    GoMap.get (m.filter (fun x => !reservedKey x.1)) k = GoMap.get m k := by
  induction m with
  | nil => rfl
  | cons p rest ih =>
    obtain ⟨k1, w⟩ := p
    by_cases h : reservedKey k1 = true
    · have hne : ¬ k1 = k := by
        intro e
        rw [e, hk] at h
        cases h
      simp [List.filter_cons, h, GoMap.get, hne, ih]
    · simp only [Bool.not_eq_true] at h
      by_cases e : k1 = k
      · subst e
        simp [List.filter_cons, h, GoMap.get]
      · simp [List.filter_cons, h, GoMap.get, e, ih]

theorem prepare_congr_at {V : Type} (rt : GoRuntime V) (tool : Tool) (a b : GoMap V)
    (hurl : ∀ e, constOf tool.inputSchema.properties "endpoint" = some (Any.str e) →
      resolveURL rt e a = resolveURL rt e b)
    (hbody : a.get "body" = b.get "body") : prepare rt tool a = prepare rt tool b := by
  simp only [prepare]
  cases he : constOf tool.inputSchema.properties "endpoint" with
  | none => rfl
  | some c =>
    cases hm : constOf tool.inputSchema.properties "method" with
    | none => rfl
    | some d =>
      cases c with
      | str e =>
        cases d with
        | str m => simp only [hurl e he, hbody]
        | _ => rfl
      | _ => rfl

theorem fillTemplate_congr_substitutable {V : Type} (rt : GoRuntime V) (a b : GoMap V)
    (h : ∀ k, substitutable k = true → a.get k = b.get k) (segs : List Segment) :
    fillTemplate rt a segs = fillTemplate rt b segs := by
  induction segs with
  | nil => rfl
  | cons seg rest ih =>
    cases seg with
    | lit t => simp [fillTemplate, ih]
    | hole n =>
      by_cases hn : substitutable n = true
      · simp [fillTemplate, ih, hn, h n hn]
      · simp [fillTemplate, ih, hn]

/-- What the handler has read when it has a request to send: both constants of the
descriptor, as strings. -/
theorem prepare_send {V : Type} (rt : GoRuntime V) (tool : Tool) (args : GoMap V)
    (req : Request) (h : prepare rt tool args = Prepared.send req) :
    ∃ endpointStr methodStr,
      constOf tool.inputSchema.properties "endpoint" = some (Any.str endpointStr)
      ∧ constOf tool.inputSchema.properties "method" = some (Any.str methodStr)
      ∧ req.method = requestMethod methodStr
      ∧ req.url = resolveURL rt endpointStr args := by
  unfold prepare at h
  cases he : constOf tool.inputSchema.properties "endpoint" with
  | none => simp [he] at h
  | some c =>
    cases hm : constOf tool.inputSchema.properties "method" with
    | none => simp [he, hm] at h
    | some d =>
      cases c with
      | str e =>
        cases d with
        | str m =>
          refine ⟨e, m, rfl, rfl, ?_⟩
          simp only [he, hm] at h
          cases hb : args.get "body" with
          | none =>
            simp only [hb] at h
            cases hn : rt.newRequestError m (resolveURL rt e args) with
            | some err => simp [hn] at h
            | none =>
              simp only [hn, Prepared.send.injEq] at h
              subst h
              exact ⟨rfl, rfl⟩
          | some v =>
            simp only [hb] at h
            cases hj : rt.marshalIndent v with
            | error err => simp [hj] at h
            | ok j =>
              simp only [hj] at h
              cases hn : rt.newRequestError m (resolveURL rt e args) with
              | some err => simp [hn] at h
              | none =>
                simp only [hn, Prepared.send.injEq] at h
                subst h
                exact ⟨rfl, rfl⟩
        | _ => simp [he, hm] at h
      | _ => simp [he, hm] at h

/-- C2 (amended): for every descriptor, (1) two argument lists with the same entries
other than endpoint and method, in the same order, lead the handler to the same point
(the same method, URL, payload and headers, or the same early result); (2) when the
braces of the endpoint constant only delimit placeholders, and the substitutable keys
have no closing brace and the texts of their values no opening brace, any two argument
maps `a` and `b` (each key once) that agree on every key other than endpoint and
method lead it to the same point in every order `first` of `a` and every order
`second` of `b`; (3) whenever the handler has a request to send, its method is the
method constant of the descriptor (GET for the empty string) and its URL is the
endpoint constant of the descriptor after the substitution of the arguments other than
endpoint and method. -/
theorem C2_reserved_keys_ignored {V : Type} (rt : GoRuntime V) (tool : Tool) :
    (∀ first second : GoMap V,
        first.filter (fun x => !reservedKey x.1) = second.filter (fun x => !reservedKey x.1) →
        prepare rt tool first = prepare rt tool second)
    ∧ (∀ (segs : List Segment) (a b first second : GoMap V),
        (∀ e, constOf tool.inputSchema.properties "endpoint" = some (Any.str e) →
          e = renderTemplate segs) →
        (∀ seg ∈ segs, seg.plain = true) →
        a.keys.Nodup → b.keys.Nodup →
        (∀ k, k ≠ "endpoint" → k ≠ "method" → a.get k = b.get k) →
        (∀ arg ∈ a, substitutable arg.1 = true →
          hasClose arg.1 = false ∧ hasOpen (rt.sprint arg.2) = false) →
        List.Perm first a → List.Perm second b →
        prepare rt tool first = prepare rt tool second)
    ∧ (∀ (args : GoMap V) (req : Request), prepare rt tool args = Prepared.send req →
        ∃ endpointStr methodStr,
          constOf tool.inputSchema.properties "endpoint" = some (Any.str endpointStr)
          ∧ constOf tool.inputSchema.properties "method" = some (Any.str methodStr)
          ∧ req.method = requestMethod methodStr
          ∧ req.url
              = resolveURL rt endpointStr (args.filter (fun x => !reservedKey x.1))) := by
  refine ⟨?_, ?_, ?_⟩
  · intro first second h
    apply prepare_congr
    · intro e
      rw [resolveURL_filter rt first e, resolveURL_filter rt second e, h]
    · rw [← GoMap.get_filter_reserved first "body" (by decide),
        ← GoMap.get_filter_reserved second "body" (by decide), h]
  · intro segs a b first second hconst hsegs ha hb hagree hargs hfirst hsecond
    have hsub : ∀ k, substitutable k = true → k ≠ "endpoint" ∧ k ≠ "method" := by
      intro k hk
      have hk1 := (substitutable_iff k).2 hk
      exact ⟨hk1.2.1, hk1.2.2⟩
    have hargsb : ∀ arg ∈ b, substitutable arg.1 = true →
        hasClose arg.1 = false ∧ hasOpen (rt.sprint arg.2) = false := by
      rintro ⟨k, v⟩ hin hk
      have hget : b.get k = some v := (GoMap.get_eq_some_iff b hb k v).2 hin
      rw [← hagree k (hsub k hk).1 (hsub k hk).2, GoMap.get_eq_some_iff a ha] at hget
      exact hargs (k, v) hget hk
    apply prepare_congr_at
    · intro e he
      rw [hconst e he, resolveURL_fillTemplate rt segs a hsegs ha hargs first hfirst,
        resolveURL_fillTemplate rt segs b hsegs hb hargsb second hsecond]
      exact fillTemplate_congr_substitutable rt a b
        (fun k hk => hagree k (hsub k hk).1 (hsub k hk).2) segs
    · have hfk : first.keys.Nodup := (List.Perm.nodup_iff (hfirst.map Prod.fst)).2 ha
      have hsk : second.keys.Nodup := (List.Perm.nodup_iff (hsecond.map Prod.fst)).2 hb
      rw [GoMap.get_perm hfirst hfk, GoMap.get_perm hsecond hsk]
      exact hagree "body" (by decide) (by decide)
  · intro args req h
    obtain ⟨e, m, he, hm, h1, h2⟩ := prepare_send rt tool args req h
    exact ⟨e, m, he, hm, h1, by rw [h2, resolveURL_filter rt args e]⟩

/-- C2 at a concrete input: a caller who adds an endpoint key and a caller who adds a
method key to the same arguments, visited in the same and in another order, reach the
same request, whose method and URL come from the constants of the descriptor. -/
theorem C2_reserved_keys_ignored_witness :
    prepare Sample.runtime Sample.getPost
        [("endpoint", "http://other.test"), ("id", "7"), ("postId", "42")]
      = prepare Sample.runtime Sample.getPost
        [("id", "7"), ("method", "DELETE"), ("postId", "42")]
    ∧ prepare Sample.runtime Sample.getPost
        [("endpoint", "http://other.test"), ("id", "7"), ("postId", "42")]
      = prepare Sample.runtime Sample.getPost
        [("postId", "42"), ("method", "DELETE"), ("id", "7")]
    ∧ prepare Sample.runtime Sample.getPost
        [("postId", "42"), ("method", "DELETE"), ("id", "7")]
      = Prepared.send
        { method := "GET", url := "/users/7/posts/42", body := none, header := [] }
    ∧ ∃ endpointStr methodStr,
        constOf Sample.getPost.inputSchema.properties "endpoint" = some (Any.str endpointStr)
        ∧ constOf Sample.getPost.inputSchema.properties "method" = some (Any.str methodStr)
        ∧ "GET" = requestMethod methodStr
        ∧ "/users/7/posts/42"
            = resolveURL Sample.runtime endpointStr
                ([("postId", "42"), ("method", "DELETE"), ("id", "7")].filter
                  (fun x => !reservedKey x.1)) :=
  have h := C2_reserved_keys_ignored Sample.runtime Sample.getPost
  ⟨h.1 _ _ (by decide),
    h.2.1 [Segment.lit "/users/", Segment.hole "id", Segment.lit "/posts/",
        Segment.hole "postId"]
      [("endpoint", "http://other.test"), ("id", "7"), ("postId", "42")]
      [("id", "7"), ("postId", "42"), ("method", "DELETE")]
      [("endpoint", "http://other.test"), ("id", "7"), ("postId", "42")]
      [("postId", "42"), ("method", "DELETE"), ("id", "7")]
      (by
        intro e he
        have h0 : constOf Sample.getPost.inputSchema.properties "endpoint"
            = some (Any.str "/users/\x7bid\x7d/posts/\x7bpostId\x7d") := rfl
        rw [h0] at he
        cases he
        decide)
      (by decide) (by decide) (by decide)
      (by
        intro k h1 h2
        simp [GoMap.get, Ne.symm h1, Ne.symm h2])
      (by decide) (List.Perm.refl _)
      (by decide),
    by decide,
    h.2.2 [("postId", "42"), ("method", "DELETE"), ("id", "7")]
      { method := "GET", url := "/users/7/posts/42", body := none, header := [] }
      (by decide)⟩

/-- C2 as stated fails: on the descriptor with endpoint constant `/{a}` the argument
maps {a: `{b}`, b: x, endpoint: http://other.test} and {a: `{b}`, b: x} agree on every
key other than endpoint and method, and the handler resolves the URL `/x` for the
first, visited a before b, and the URL `/{b}` for the second, visited b before a. -/
theorem C2_counterexample :
    (∀ k, k ≠ "endpoint" → k ≠ "method" →
      GoMap.get [("a", "\x7bb\x7d"), ("b", "x"), ("endpoint", "http://other.test")] k
        = GoMap.get [("b", "x"), ("a", "\x7bb\x7d")] k)
    ∧ prepare Sample.runtime Sample.getA
        [("a", "\x7bb\x7d"), ("b", "x"), ("endpoint", "http://other.test")]
      = Prepared.send { method := "GET", url := "/x", body := none, header := [] }
    ∧ prepare Sample.runtime Sample.getA [("b", "x"), ("a", "\x7bb\x7d")]
      = Prepared.send { method := "GET", url := "/\x7bb\x7d", body := none, header := [] }
    ∧ prepare Sample.runtime Sample.getA
        [("a", "\x7bb\x7d"), ("b", "x"), ("endpoint", "http://other.test")]
      ≠ prepare Sample.runtime Sample.getA [("b", "x"), ("a", "\x7bb\x7d")] := by
  refine ⟨?_, by decide, by decide, by decide⟩
  intro k h1 h2
  by_cases ha : "a" = k
  · subst ha
    decide
  · by_cases hb : "b" = k
    · subst hb
      decide
    · simp [GoMap.get, ha, hb, Ne.symm h1]

end Axon
